import Mathlib

/-!
# Verification of the msprime mutation generator (`lib/mutgen.c`)

A shallow embedding of `mutgen.c` into Lean 4.  Genomic positions, rates and
times (C `double`s) are modelled as rationals (`ℚ`): every comparison and
arithmetic operation the claims depend on is exact sign/order arithmetic, and
NaN inputs are outside the supported domain.  C arrays are Lean lists, the
`int32` row indices are `Int` with the `TSK_NULL = -1` sentinel kept as data,
and out-of-repository collaborators (the AVL tree, the block allocator, the
table-collection API and the GSL random primitives) are modelled from their
contracts in the specification, each marked in its doc comment.
-/

namespace Mutgen

/-- The `TSK_NULL` sentinel used for null mutation parents. -/
def TSK_NULL : Int := -1

/-- The error kinds returned by the mutation generator (`MSP_ERR_*`).
`tskError` stands for any opaque error forwarded from the table collection
(such as an integrity-check failure), and `stuck` models divergence of the
unbounded rejection-sampling / interval loops when the modelling fuel runs
out. -/
inductive MspError where
  | badParamValue
  | badMutationMapSize
  | badMutationMapPosition
  | badMutationMapRate
  | incompatibleMutationMap
  | noMemory
  | duplicateSitePosition
  | tskError
  | stuck
deriving DecidableEq, Repr

/-- The piecewise-constant mutation rate map (`self->map`).  `position` is the
backing array of the breakpoints: it is allocated with `size + 1` slots so
that the sentinel can be written at index `size` by `mutgen_generate`. -/
structure rate_map_t where
  size : Nat
  position : List ℚ
  rate : List ℚ
deriving DecidableEq, Repr

/-- The validation/write loop of `mutgen_set_map` (`for (j = 0; j < size; j++)`):
checks strict increase of positions and non-negativity of rates, writing each
accepted entry in place into the freshly allocated arrays.  The loop counter
`j` starts at `0`; the first argument is the number of remaining iterations
(`size - j`). -/
def mutgen_set_map_loop (position rate : List ℚ) :
    Nat → Nat → rate_map_t → Option MspError × rate_map_t
  | 0, _, m => (none, m)
  | todo + 1, j, m =>
    if 0 < j ∧ position.getD (j - 1) 0 ≥ position.getD j 0 then
      (some .badMutationMapPosition, m)
    else if rate.getD j 0 < 0 then
      (some .badMutationMapRate, m)
    else
      mutgen_set_map_loop position rate todo (j + 1)
        { m with position := m.position.set j (position.getD j 0),
                 rate := m.rate.set j (rate.getD j 0) }

/-- `mutgen_set_map`.  The C function first frees the previous arrays and
mallocs fresh ones of lengths `size + 1` and `size`; the contents of a fresh
malloc are unspecified, modelled by the `junk` parameter.  Only then does it
validate: `size < 1`, `position[0] != 0`, and the per-entry loop.  `self->map.size`
is overwritten with the new size before the loop runs.  malloc failure is not
modelled (allocation is assumed to succeed). -/
def mutgen_set_map (junk : ℚ) (self : rate_map_t) (size : Nat)
    (position rate : List ℚ) : Option MspError × rate_map_t :=
  let m0 : rate_map_t :=
    { self with position := List.replicate (size + 1) junk,
                rate := List.replicate size junk }
  if size < 1 then (some .badMutationMapSize, m0)
  else if position.getD 0 0 ≠ 0 then (some .badMutationMapPosition, m0)
  else mutgen_set_map_loop position rate size 0 { m0 with size := size }

/-- `mutgen_set_rate`: a single rate over the whole region. -/
def mutgen_set_rate (junk : ℚ) (self : rate_map_t) (rate : ℚ) :
    Option MspError × rate_map_t :=
  mutgen_set_map junk self 1 [0] [rate]

/-- Validity of a rate map request, as the specification words it:
at least one entry, first position `0`, strictly increasing positions,
non-negative rates. -/
def map_request_valid (size : Nat) (position rate : List ℚ) : Prop :=
  1 ≤ size ∧ position.getD 0 0 = 0 ∧
  (∀ j, j < size → 0 < j → position.getD (j - 1) 0 < position.getD j 0) ∧
  (∀ j, j < size → 0 ≤ rate.getD j 0)

/-! ## External columnar tables (the table-collection collaborator)

Variable-length string columns are flattened `List Char` with an explicit
offset column, exactly as in the offset-encoded tskit columns the C code
reads. -/

/-- The external site table. -/
structure tsk_site_table_t where
  position : List ℚ
  ancestral_state : List Char
  ancestral_state_offset : List Nat
  metadata : List Char
  metadata_offset : List Nat
deriving DecidableEq, Repr

/-- `sites->num_rows`. -/
def tsk_site_table_t.num_rows (t : tsk_site_table_t) : Nat := t.position.length

/-- The external mutation table. -/
structure tsk_mutation_table_t where
  site : List Int
  node : List Int
  parent : List Int
  derived_state : List Char
  derived_state_offset : List Nat
  metadata : List Char
  metadata_offset : List Nat
deriving DecidableEq, Repr

/-- `mutations->num_rows`. -/
def tsk_mutation_table_t.num_rows (t : tsk_mutation_table_t) : Nat := t.site.length

/-- The external node table (only the `time` column is read by `mutgen.c`). -/
structure tsk_node_table_t where
  time : List ℚ
deriving DecidableEq, Repr

/-- The external edge table. -/
structure tsk_edge_table_t where
  left : List ℚ
  right : List ℚ
  parent : List Int
  child : List Int
deriving DecidableEq, Repr

/-- `edges->num_rows`. -/
def tsk_edge_table_t.num_rows (t : tsk_edge_table_t) : Nat := t.left.length

/-- The table collection handed to `mutgen_generate`. -/
structure tsk_table_collection_t where
  sequence_length : ℚ
  nodes : tsk_node_table_t
  edges : tsk_edge_table_t
  sites : tsk_site_table_t
  mutations : tsk_mutation_table_t
deriving DecidableEq, Repr

/-- Modelled from the spec: `tsk_site_table_clear` (the table-collection API
is an external collaborator).  A cleared table has no rows and the single
offset `0` in each offset column. -/
def empty_site_table : tsk_site_table_t :=
  { position := [], ancestral_state := [], ancestral_state_offset := [0],
    metadata := [], metadata_offset := [0] }

/-- Modelled from the spec: `tsk_mutation_table_clear`. -/
def empty_mutation_table : tsk_mutation_table_t :=
  { site := [], node := [], parent := [], derived_state := [],
    derived_state_offset := [0], metadata := [], metadata_offset := [0] }

/-- Modelled from the spec: `tsk_site_table_add_row` appends a row and
returns its newly assigned index (append failure, a resource-exhaustion
condition of the collaborator, is not modelled). -/
def tsk_site_table_add_row (t : tsk_site_table_t) (pos : ℚ)
    (anc meta : List Char) : tsk_site_table_t × Nat :=
  ({ position := t.position ++ [pos],
     ancestral_state := t.ancestral_state ++ anc,
     ancestral_state_offset :=
       t.ancestral_state_offset ++ [t.ancestral_state.length + anc.length],
     metadata := t.metadata ++ meta,
     metadata_offset := t.metadata_offset ++ [t.metadata.length + meta.length] },
   t.position.length)

/-- Modelled from the spec: `tsk_mutation_table_add_row`. -/
def tsk_mutation_table_add_row (t : tsk_mutation_table_t) (site : Int)
    (node : Int) (parent : Int) (der meta : List Char) :
    tsk_mutation_table_t × Nat :=
  ({ site := t.site ++ [site],
     node := t.node ++ [node],
     parent := t.parent ++ [parent],
     derived_state := t.derived_state ++ der,
     derived_state_offset :=
       t.derived_state_offset ++ [t.derived_state.length + der.length],
     metadata := t.metadata ++ meta,
     metadata_offset := t.metadata_offset ++ [t.metadata.length + meta.length] },
   t.site.length)

/-- One offset column is consistent: `num_rows + 1` entries, starting at `0`,
non-decreasing, ending at the column's total byte length. -/
def offsets_ok (n col_len : Nat) (off : List Nat) : Bool :=
  decide (off.length = n + 1) && decide (off.headD 0 = 0) &&
  decide (off.getLastD 0 = col_len) &&
  (off.zip off.tail).all fun p => decide (p.1 ≤ p.2)

/-- Modelled from the spec: `tsk_table_collection_check_integrity(tables,
TSK_CHECK_OFFSETS)` — the structural validity check (consistent offsets) the
generator runs before touching the tables. -/
def tsk_table_collection_check_integrity (t : tsk_table_collection_t) : Bool :=
  offsets_ok t.sites.num_rows t.sites.ancestral_state.length
      t.sites.ancestral_state_offset &&
  offsets_ok t.sites.num_rows t.sites.metadata.length t.sites.metadata_offset &&
  offsets_ok t.mutations.num_rows t.mutations.derived_state.length
      t.mutations.derived_state_offset &&
  offsets_ok t.mutations.num_rows t.mutations.metadata.length
      t.mutations.metadata_offset

/-! ## In-memory site/mutation records and the site registry -/

/-- The in-memory mutation record built on the arena.  `id` is used by the
generator purely as the origin flag: `1` = imported from the tables, `0` =
freshly generated (the C code memsets the record and only sets `id` on
import). -/
structure tsk_mutation_t where
  id : Int
  node : Int
  parent : Int
  derived_state : List Char
  metadata : List Char
deriving DecidableEq, Repr

/-- The in-memory site record built on the arena. -/
structure tsk_site_t where
  position : ℚ
  ancestral_state : List Char
  metadata : List Char
  mutations : List tsk_mutation_t
deriving DecidableEq, Repr

/-- Modelled from the spec: the AVL tree of sites ordered by `cmp_site`
(position order); `avl.c` is not under `src/`.  §4.3: `insert` fails
(returns `none`, the C `NULL`) on a duplicate position and otherwise keeps
the structure ordered; we model the tree by its in-order list of sites. -/
def avl_insert_site : List tsk_site_t → tsk_site_t → Option (List tsk_site_t)
  | [], s => some [s]
  | t :: rest, s =>
    if s.position < t.position then some (s :: t :: rest)
    else if s.position = t.position then none
    else (avl_insert_site rest s).map (t :: ·)

/-- Modelled from the spec: `avl_search` on the site tree — is there a
registered site at exactly this position? -/
def avl_search_site (sites : List tsk_site_t) (pos : ℚ) : Bool :=
  sites.any fun s => decide (s.position = pos)

/-- The byte sizes of the three fixed-size records the generator allocates
(`sizeof(tsk_site_t)`, `sizeof(avl_node_t)`, `sizeof(tsk_mutation_t)`);
platform constants, kept abstract. -/
structure layout_t where
  sizeof_site : Nat
  sizeof_avl_node : Nat
  sizeof_mutation : Nat
deriving DecidableEq, Repr

/-- Modelled from the spec: `tsk_blkalloc_get` succeeds exactly when the
request is strictly below the block size (§4.2; the sizing comment in
`mutgen_init_allocator` records that the allocator rejects a request equal
to the block size, whence all the `1 +` terms). -/
def tsk_blkalloc_ok (block_size n : Nat) : Bool := decide (n < block_size)

/-- The mutation generator state (`mutgen_t`).  The arena itself is
summarised by its block size; the AVL site tree by its in-order site list. -/
structure mutgen_t where
  alphabet : Nat
  start_time : ℚ
  end_time : ℚ
  block_size : Nat
  map : rate_map_t
  sites : List tsk_site_t
deriving DecidableEq, Repr

/-- `mutgen_set_time_interval`. -/
def mutgen_set_time_interval (self : mutgen_t) (start_time end_time : ℚ) :
    Option MspError × mutgen_t :=
  if end_time < start_time then (some .badParamValue, self)
  else (none, { self with start_time := start_time, end_time := end_time })

/-- The binary alphabet's single transition. -/
def binary_mutation_types : List (Char × Char) := [('0', '1')]

/-- The 12 ordered nucleotide transitions. -/
def acgt_mutation_types : List (Char × Char) :=
  [('A', 'C'), ('A', 'G'), ('A', 'T'),
   ('C', 'A'), ('C', 'G'), ('C', 'T'),
   ('G', 'A'), ('G', 'C'), ('G', 'T'),
   ('T', 'A'), ('T', 'C'), ('T', 'G')]

/-- `mutgen_init_allocator`: frees and re-initialises the arena, first
raising the block size to cover every single allocation the current input
tables can give rise to. -/
def mutgen_init_allocator (L : layout_t) (self : mutgen_t)
    (tables : tsk_table_collection_t) : mutgen_t :=
  let bs := if self.block_size = 0 then 8192 else self.block_size
  let bs := max bs 128
  let bs := max bs (1 + tables.sites.ancestral_state.length)
  let bs := max bs (1 + tables.sites.metadata.length)
  let bs := max bs (1 + tables.mutations.derived_state.length)
  let bs := max bs (1 + tables.mutations.metadata.length)
  let bs := max bs ((1 + tables.mutations.num_rows) * L.sizeof_mutation)
  { self with block_size := bs }

/-- `mutgen_add_mutation`: allocates a site, a mutation and an AVL node on
the arena (failing with `noMemory` if any request does not fit), builds a
fresh single-mutation site — zeroed records, so `id = 0` (origin generated),
ancestral/derived state of length 1, `parent = TSK_NULL` — and inserts it
into the tree.  The C code `assert`s that this insertion succeeded (the
rejection loop guarantees the position is not yet registered); the model
leaves the tree unchanged on that unreachable branch. -/
def mutgen_add_mutation (L : layout_t) (self : mutgen_t) (node : Int)
    (position : ℚ) (ancestral_state derived_state : Char) :
    Option MspError × mutgen_t :=
  if ¬ (tsk_blkalloc_ok self.block_size L.sizeof_site &&
        tsk_blkalloc_ok self.block_size L.sizeof_mutation &&
        tsk_blkalloc_ok self.block_size L.sizeof_avl_node) then
    (some .noMemory, self)
  else
    let mutation : tsk_mutation_t :=
      { id := 0, node := node, parent := TSK_NULL,
        derived_state := [derived_state], metadata := [] }
    let site : tsk_site_t :=
      { position := position, ancestral_state := [ancestral_state],
        metadata := [], mutations := [mutation] }
    match avl_insert_site self.sites site with
    | some sites => (none, { self with sites := sites })
    | none => (none, self)

/-! ## Import preload (`mutget_initialise_sites`) -/

/-- The byte range `[a, b)` of a flattened string column. -/
def column_slice (col : List Char) (a b : Nat) : List Char :=
  (col.drop a).take (b - a)

/-- The scan `j = cursor; while (j < num_rows && mutations->site[j] == site_id) j++`:
the length of the maximal run of rows at `cursor` whose site column equals
`site_id`. -/
def run_length (siteCol : List Int) (cursor : Nat) (site_id : Int) : Nat :=
  ((siteCol.drop cursor).takeWhile fun s => decide (s = site_id)).length

/-- Rehydration of one input mutation row: `id` is set to `1` (the imported
flag), node/parent copied, and the two string buffers copied from the
offset-encoded columns (`none` models an arena `noMemory` failure on a
buffer request). -/
def import_mutation_row (bs : Nat) (mt : tsk_mutation_table_t) (row : Nat) :
    Option tsk_mutation_t :=
  let d0 := mt.derived_state_offset.getD row 0
  let d1 := mt.derived_state_offset.getD (row + 1) 0
  if ¬ tsk_blkalloc_ok bs (d1 - d0) then none
  else
    let m0 := mt.metadata_offset.getD row 0
    let m1 := mt.metadata_offset.getD (row + 1) 0
    if ¬ tsk_blkalloc_ok bs (m1 - m0) then none
    else
      some { id := 1, node := mt.node.getD row 0,
             parent := mt.parent.getD row TSK_NULL,
             derived_state := column_slice mt.derived_state d0 d1,
             metadata := column_slice mt.metadata m0 m1 }

/-- Rehydration of the `n` mutation rows starting at `start`
(`for (j = 0; j < num_mutations; j++) { ... mutation_id++; }`). -/
def import_site_mutations (bs : Nat) (mt : tsk_mutation_table_t) :
    Nat → Nat → Option (List tsk_mutation_t)
  | _, 0 => some []
  | start, n + 1 =>
    match import_mutation_row bs mt start with
    | none => none
    | some m =>
      match import_site_mutations bs mt (start + 1) n with
      | none => none
      | some ms => some (m :: ms)

/-- The body of `mutget_initialise_sites`: one iteration per input site row,
carrying the running mutation cursor (`mutation_id`).  Each iteration takes
the run of mutation rows at the cursor matching this site id, allocates the
site record, AVL node, mutation array and string buffers (any oversize
request fails with `noMemory`), and inserts the rehydrated site; a rejected
insertion surfaces as `duplicateSitePosition`. -/
def mutget_initialise_sites_loop (L : layout_t) (bs : Nat)
    (st : tsk_site_table_t) (mt : tsk_mutation_table_t) :
    Nat → Nat → Nat → List tsk_site_t → Option MspError × List tsk_site_t
  | 0, _, _, sites => (none, sites)
  | todo + 1, site_id, cursor, sites =>
    let num := run_length mt.site cursor (Int.ofNat site_id)
    if ¬ (tsk_blkalloc_ok bs L.sizeof_site && tsk_blkalloc_ok bs L.sizeof_avl_node &&
          tsk_blkalloc_ok bs (num * L.sizeof_mutation)) then
      (some .noMemory, sites)
    else
      let a0 := st.ancestral_state_offset.getD site_id 0
      let a1 := st.ancestral_state_offset.getD (site_id + 1) 0
      if ¬ tsk_blkalloc_ok bs (a1 - a0) then (some .noMemory, sites)
      else
        let m0 := st.metadata_offset.getD site_id 0
        let m1 := st.metadata_offset.getD (site_id + 1) 0
        if ¬ tsk_blkalloc_ok bs (m1 - m0) then (some .noMemory, sites)
        else
          match import_site_mutations bs mt cursor num with
          | none => (some .noMemory, sites)
          | some muts =>
            let site : tsk_site_t :=
              { position := st.position.getD site_id 0,
                ancestral_state := column_slice st.ancestral_state a0 a1,
                metadata := column_slice st.metadata m0 m1,
                mutations := muts }
            match avl_insert_site sites site with
            | none => (some .duplicateSitePosition, sites)
            | some sites' =>
              mutget_initialise_sites_loop L bs st mt todo (site_id + 1)
                (cursor + num) sites'

/-- `mutget_initialise_sites` (the source's name, typo included): preloads
every existing site row and its associated mutation rows into the registry. -/
def mutget_initialise_sites (L : layout_t) (self : mutgen_t)
    (tables : tsk_table_collection_t) : Option MspError × mutgen_t :=
  let r := mutget_initialise_sites_loop L self.block_size tables.sites
    tables.mutations tables.sites.num_rows 0 0 self.sites
  (r.1, { self with sites := r.2 })

/-! ## Export (`mutgen_populate_tables`) -/

/-- Emission of one site's mutations, threading the `new_mutations` counter:
a non-null stored parent is shifted forward by the counter, and the counter
increments after emitting each mutation whose `id` flag is `0` (generated). -/
def emit_site_mutations (site_id : Int) :
    List tsk_mutation_t → Int → tsk_mutation_table_t →
    tsk_mutation_table_t × Int
  | [], new_mutations, mt => (mt, new_mutations)
  | m :: rest, new_mutations, mt =>
    let parent := if m.parent ≠ TSK_NULL then m.parent + new_mutations
                  else m.parent
    let mt := (tsk_mutation_table_add_row mt site_id m.node parent
      m.derived_state m.metadata).1
    let new_mutations := if m.id = 0 then new_mutations + 1 else new_mutations
    emit_site_mutations site_id rest new_mutations mt

/-- The site loop of `mutgen_populate_tables`: traverse the registry in
order, appending each site row and its mutation rows. -/
def mutgen_populate_tables_loop :
    List tsk_site_t → Int → tsk_site_table_t → tsk_mutation_table_t →
    tsk_site_table_t × tsk_mutation_table_t
  | [], _, st, mt => (st, mt)
  | s :: rest, new_mutations, st, mt =>
    let r := tsk_site_table_add_row st s.position s.ancestral_state s.metadata
    let e := emit_site_mutations (Int.ofNat r.2) s.mutations new_mutations mt
    mutgen_populate_tables_loop rest e.2 r.1 e.1

/-- `mutgen_populate_tables`. -/
def mutgen_populate_tables (sites : List tsk_site_t) (st : tsk_site_table_t)
    (mt : tsk_mutation_table_t) : tsk_site_table_t × tsk_mutation_table_t :=
  mutgen_populate_tables_loop sites 0 st mt

/-! ## The random generator capability and the sampling loops -/

/-- Modelled from the spec: the GSL random generator, an exclusively owned
capability with a single sequential draw stream (§1, §5).  Each primitive is
an arbitrary function of the draw counter and its arguments; a call consumes
one position of the stream by advancing the counter. -/
structure gsl_rng where
  poisson_fn : Nat → ℚ → Nat
  flat_fn : Nat → ℚ → ℚ → ℚ
  uniform_int_fn : Nat → Nat → Nat
  counter : Nat

/-- One Poisson draw `gsl_ran_poisson(rng, mu)`. -/
def gsl_ran_poisson (r : gsl_rng) (mu : ℚ) : Nat × gsl_rng :=
  (r.poisson_fn r.counter mu, { r with counter := r.counter + 1 })

/-- One uniform draw `gsl_ran_flat(rng, a, b)`. -/
def gsl_ran_flat (r : gsl_rng) (a b : ℚ) : ℚ × gsl_rng :=
  (r.flat_fn r.counter a b, { r with counter := r.counter + 1 })

/-- One uniform integer draw `gsl_rng_uniform_int(rng, n)`. -/
def gsl_rng_uniform_int (r : gsl_rng) (n : Nat) : Nat × gsl_rng :=
  (r.uniform_int_fn r.counter n, { r with counter := r.counter + 1 })

/-- Modelled from the spec: `tsk_search_sorted(position, size, left)` returns
the insertion point in the first `size` entries (§4.4 step 2) — the length of
the maximal prefix of entries below the query. -/
def tsk_search_sorted (l : List ℚ) (size : Nat) (x : ℚ) : Nat :=
  ((l.take size).takeWhile fun p => decide (p < x)).length

/-- The rejection-sampling `do { position = gsl_ran_flat(...); } while` loop:
redraw until no registered site sits at that exact position.  The C loop is
unbounded; `none` models its divergence when the modelling fuel runs out. -/
def rejection_loop (sites : List tsk_site_t) (a b : ℚ) :
    gsl_rng → Nat → Option (ℚ × gsl_rng)
  | _, 0 => none
  | r, fuel + 1 =>
    let d := gsl_ran_flat r a b
    if avl_search_site sites d.1 then rejection_loop sites a b d.2 fuel
    else some (d.1, d.2)

/-- The inner `for (l = 0; l < branch_mutations; l++)` loop: rejection-sample
a fresh position, draw the mutation type, add the new single-mutation site. -/
def branch_mut_loop (L : layout_t) (rej_fuel : Nat) (child : Int)
    (left right : ℚ) (types : List (Char × Char)) :
    Nat → mutgen_t → gsl_rng → Option MspError × mutgen_t × gsl_rng
  | 0, self, rng => (none, self, rng)
  | l + 1, self, rng =>
    match rejection_loop self.sites left right rng rej_fuel with
    | none => (some .stuck, self, rng)
    | some (position, rng) =>
      let t := gsl_rng_uniform_int rng types.length
      let tp := types.getD t.1 ('0', '1')
      match mutgen_add_mutation L self child position tp.1 tp.2 with
      | (some e, self) => (some e, self, t.2)
      | (none, self) => branch_mut_loop L rej_fuel child left right types l self t.2

/-- The `while (right != edge_right)` loop over rate-map sub-intervals: clamp
the next breakpoint to the edge's right end, form the Poisson mean
`branch_length * (right - left) * rate[map_index]`, draw the count, run the
per-mutation loop, and step to the next sub-interval.  (As in the source,
`left` stays the edge's left coordinate throughout.)  `fuel` bounds the
number of iterations; exhaustion surfaces as `stuck`. -/
def interval_loop (L : layout_t) (rej_fuel : Nat) (types : List (Char × Char))
    (child : Int) (branch_length left edge_right : ℚ) :
    Nat → Nat → ℚ → mutgen_t → gsl_rng → Option MspError × mutgen_t × gsl_rng
  | 0, _, right0, self, rng =>
    if right0 = edge_right then (none, self, rng) else (some .stuck, self, rng)
  | fuel + 1, map_index, right0, self, rng =>
    if right0 = edge_right then (none, self, rng)
    else
      let right := min edge_right (self.map.position.getD (map_index + 1) 0)
      let mu := branch_length * (right - left) * self.map.rate.getD map_index 0
      let p := gsl_ran_poisson rng mu
      match branch_mut_loop L rej_fuel child left right types p.1 self p.2 with
      | (some e, self, rng) => (some e, self, rng)
      | (none, self, rng) =>
        interval_loop L rej_fuel types child branch_length left edge_right
          fuel (map_index + 1) right self rng

/-- The outer `for (j = 0; j < edges->num_rows; j++)` loop: per edge, clip
the branch to the time window, locate the rate-map sub-interval containing
the edge's left coordinate, and run the sub-interval loop. -/
def edge_loop (L : layout_t) (fuel rej_fuel : Nat) (types : List (Char × Char))
    (nodes : tsk_node_table_t) (edges : tsk_edge_table_t)
    (start_time end_time : ℚ) :
    Nat → Nat → mutgen_t → gsl_rng → Option MspError × mutgen_t × gsl_rng
  | _, 0, self, rng => (none, self, rng)
  | j, todo + 1, self, rng =>
    let left := edges.left.getD j 0
    let edge_right := edges.right.getD j 0
    let parent := edges.parent.getD j 0
    let child := edges.child.getD j 0
    let branch_start := max start_time (nodes.time.getD child.toNat 0)
    let branch_end := min end_time (nodes.time.getD parent.toNat 0)
    let branch_length := branch_end - branch_start
    let mi := tsk_search_sorted self.map.position self.map.size left
    let map_index := if self.map.position.getD mi 0 > left then mi - 1 else mi
    match interval_loop L rej_fuel types child branch_length left edge_right
        fuel map_index 0 self rng with
    | (some e, self, rng) => (some e, self, rng)
    | (none, self, rng) =>
      edge_loop L fuel rej_fuel types nodes edges start_time end_time
        (j + 1) todo self rng

/-! ## `mutgen_generate` -/

/-- The `MSP_KEEP_SITES` branch of `mutgen_generate` as written: import when
the flag is set, otherwise keep the (already cleared) registry. -/
def mutgen_generate_keep (L : layout_t) (self : mutgen_t)
    (tables : tsk_table_collection_t) (keep_sites : Bool) :
    Option MspError × mutgen_t :=
  if keep_sites then mutget_initialise_sites L self tables else (none, self)

/-- The part of `mutgen_generate` that runs once the import phase has
succeeded: clear the external site and mutation tables, select the alphabet,
run the per-edge sampling loops, and flush the registry back into the
tables. -/
def mutgen_generate_phase2 (L : layout_t) (fuel rej_fuel : Nat)
    (self : mutgen_t) (rng : gsl_rng) (tables : tsk_table_collection_t) :
    Option MspError × mutgen_t × gsl_rng × tsk_table_collection_t :=
  let tables := { tables with sites := empty_site_table,
                              mutations := empty_mutation_table }
  let types := if self.alphabet = 0 then binary_mutation_types
               else acgt_mutation_types
  match edge_loop L fuel rej_fuel types tables.nodes tables.edges
      self.start_time self.end_time 0 tables.edges.num_rows self rng with
  | (some e, self, rng) => (some e, self, rng, tables)
  | (none, self, rng) =>
    let r := mutgen_populate_tables self.sites tables.sites tables.mutations
    (none, self, rng, { tables with sites := r.1, mutations := r.2 })

/-- The state of the generator after the start of `mutgen_generate`:
registry cleared, arena re-initialised, sentinel breakpoint written at the
end of the position map. -/
def mutgen_setup (L : layout_t) (self0 : mutgen_t)
    (tables : tsk_table_collection_t) : mutgen_t :=
  let self := mutgen_init_allocator L { self0 with sites := [] } tables
  { self with map := { self.map with
    position := self.map.position.set self.map.size tables.sequence_length } }

/-- `mutgen_generate`: clear the registry, re-initialise the arena, check
table integrity, write the sentinel breakpoint and check map compatibility,
optionally import the existing sites, then clear the external tables, run
the per-edge sampling loops and flush the registry (`mutgen_generate_phase2`).
`fuel` bounds the sub-interval loop per edge and `rej_fuel` the
rejection-sampling loop (both unbounded in C; exhaustion is `stuck`). -/
def mutgen_generate (L : layout_t) (fuel rej_fuel : Nat) (self0 : mutgen_t)
    (rng : gsl_rng) (tables : tsk_table_collection_t) (keep_sites : Bool) :
    Option MspError × mutgen_t × gsl_rng × tsk_table_collection_t :=
  if ¬ tsk_table_collection_check_integrity tables then
    (some .tskError, mutgen_init_allocator L { self0 with sites := [] } tables,
     rng, tables)
  else
    let self := mutgen_setup L self0 tables
    if self.map.position.getD (self.map.size - 1) 0 ≥ tables.sequence_length then
      (some .incompatibleMutationMap, self, rng, tables)
    else
      match mutgen_generate_keep L self tables keep_sites with
      | (some e, self) => (some e, self, rng, tables)
      | (none, self) => mutgen_generate_phase2 L fuel rej_fuel self rng tables

/-! ## Lemmas about `mutgen_set_map` -/

theorem set_map_loop_ret_none (position rate : List ℚ) :
    ∀ todo j m,
      (∀ k, j ≤ k → k < j + todo →
        (0 < k → position.getD (k - 1) 0 < position.getD k 0) ∧
        0 ≤ rate.getD k 0) →
      (mutgen_set_map_loop position rate todo j m).1 = none := by
  intro todo
  induction todo with
  | zero => intro j m _; rfl
  | succ n ih =>
    intro j m h
    have hk := h j le_rfl (by omega)
    have h1 : ¬ (0 < j ∧ position.getD (j - 1) 0 ≥ position.getD j 0) := by
      rintro ⟨hj0, hge⟩
      exact absurd (hk.1 hj0) (not_lt.mpr hge)
    have h2 : ¬ rate.getD j 0 < 0 := not_lt.mpr hk.2
    rw [mutgen_set_map_loop, if_neg h1, if_neg h2]
    exact ih (j + 1) _ fun k hk1 hk2 => h k (by omega) (by omega)

theorem set_map_loop_ret_badpos (position rate : List ℚ) :
    ∀ todo j m,
      (∃ k, j ≤ k ∧ k < j + todo ∧ 0 < k ∧
        position.getD (k - 1) 0 ≥ position.getD k 0) →
      (∀ k, j ≤ k → k < j + todo → 0 ≤ rate.getD k 0) →
      (mutgen_set_map_loop position rate todo j m).1 =
        some MspError.badMutationMapPosition := by
  intro todo
  induction todo with
  | zero =>
    intro j m hex _
    obtain ⟨k, hk1, hk2, _, _⟩ := hex
    omega
  | succ n ih =>
    intro j m hex hr
    obtain ⟨k, hk1, hk2, hk3, hk4⟩ := hex
    rw [mutgen_set_map_loop]
    by_cases hcond : 0 < j ∧ position.getD (j - 1) 0 ≥ position.getD j 0
    · rw [if_pos hcond]
    · have h2 : ¬ rate.getD j 0 < 0 := not_lt.mpr (hr j le_rfl (by omega))
      rw [if_neg hcond, if_neg h2]
      have hkj : j < k := by
        rcases Nat.lt_or_ge j k with h | h
        · exact h
        · exfalso; exact hcond ⟨by omega, by
            have : j = k := le_antisymm (by omega) (by omega)
            subst this; exact hk4⟩
      exact ih (j + 1) _ ⟨k, by omega, by omega, hk3, hk4⟩
        fun k hh1 hh2 => hr k (by omega) (by omega)

theorem set_map_loop_ret_badrate (position rate : List ℚ) :
    ∀ todo j m,
      (∀ k, j ≤ k → k < j + todo → 0 < k →
        position.getD (k - 1) 0 < position.getD k 0) →
      (∃ k, j ≤ k ∧ k < j + todo ∧ rate.getD k 0 < 0) →
      (mutgen_set_map_loop position rate todo j m).1 =
        some MspError.badMutationMapRate := by
  intro todo
  induction todo with
  | zero =>
    intro j m _ hex
    obtain ⟨k, hk1, hk2, _⟩ := hex
    omega
  | succ n ih =>
    intro j m hp hex
    obtain ⟨k, hk1, hk2, hk3⟩ := hex
    rw [mutgen_set_map_loop]
    have h1 : ¬ (0 < j ∧ position.getD (j - 1) 0 ≥ position.getD j 0) := by
      rintro ⟨hj0, hge⟩
      exact absurd (hp j le_rfl (by omega) hj0) (not_lt.mpr hge)
    rw [if_neg h1]
    by_cases h2 : rate.getD j 0 < 0
    · rw [if_pos h2]
    · rw [if_neg h2]
      have hkj : j < k := by
        rcases Nat.lt_or_ge j k with h | h
        · exact h
        · exfalso
          have : j = k := le_antisymm (by omega) (by omega)
          subst this; exact h2 hk3
      exact ih (j + 1) _ (fun k hh1 hh2 => hp k (by omega) (by omega))
        ⟨k, by omega, by omega, hk3⟩

theorem set_map_loop_state (position rate : List ℚ) :
    ∀ todo j m,
      (mutgen_set_map_loop position rate todo j m).2.size = m.size ∧
      (mutgen_set_map_loop position rate todo j m).2.position.length =
        m.position.length ∧
      (mutgen_set_map_loop position rate todo j m).2.rate.length =
        m.rate.length := by
  intro todo
  induction todo with
  | zero => intro j m; exact ⟨rfl, rfl, rfl⟩
  | succ n ih =>
    intro j m
    rw [mutgen_set_map_loop]
    by_cases h1 : 0 < j ∧ position.getD (j - 1) 0 ≥ position.getD j 0
    · rw [if_pos h1]; exact ⟨rfl, rfl, rfl⟩
    · rw [if_neg h1]
      by_cases h2 : rate.getD j 0 < 0
      · rw [if_pos h2]; exact ⟨rfl, rfl, rfl⟩
      · rw [if_neg h2]
        have := ih (j + 1)
          { m with position := m.position.set j (position.getD j 0),
                   rate := m.rate.set j (rate.getD j 0) }
        simpa using this

/-- C6: `mutgen_set_map` validates size ≥ 1, `position[0] = 0`, strictly
increasing positions and non-negative rates, returning
`badMutationMapSize` for an empty map, `badMutationMapPosition` for a bad
first position or a non-increasing position pair, `badMutationMapRate` for
a negative rate, and succeeding on every input satisfying all conditions. -/
theorem C6_set_map_validation (junk : ℚ) (self : rate_map_t) (size : Nat)
    (position rate : List ℚ) :
    (size = 0 →
      (mutgen_set_map junk self size position rate).1 =
        some MspError.badMutationMapSize) ∧
    (1 ≤ size → position.getD 0 0 ≠ 0 →
      (mutgen_set_map junk self size position rate).1 =
        some MspError.badMutationMapPosition) ∧
    (1 ≤ size → position.getD 0 0 = 0 →
      (∃ k, k < size ∧ 0 < k ∧ position.getD (k - 1) 0 ≥ position.getD k 0) →
      (∀ k, k < size → 0 ≤ rate.getD k 0) →
      (mutgen_set_map junk self size position rate).1 =
        some MspError.badMutationMapPosition) ∧
    (1 ≤ size → position.getD 0 0 = 0 →
      (∀ k, k < size → 0 < k → position.getD (k - 1) 0 < position.getD k 0) →
      (∃ k, k < size ∧ rate.getD k 0 < 0) →
      (mutgen_set_map junk self size position rate).1 =
        some MspError.badMutationMapRate) ∧
    (map_request_valid size position rate →
      (mutgen_set_map junk self size position rate).1 = none) := by
  refine ⟨?_, ?_, ?_, ?_, ?_⟩
  · intro hs
    subst hs
    rw [mutgen_set_map]
    simp
  · intro hs hp
    rw [mutgen_set_map]
    rw [if_neg (by omega), if_pos hp]
  · intro hs hp hex hr
    rw [mutgen_set_map]
    rw [if_neg (by omega), if_neg (by simpa using hp)]
    exact set_map_loop_ret_badpos position rate size 0 _
      (by obtain ⟨k, h1, h2, h3⟩ := hex
          exact ⟨k, Nat.zero_le k, by omega, h2, h3⟩)
      fun k _ hk2 => hr k (by omega)
  · intro hs hp hsort hex
    rw [mutgen_set_map]
    rw [if_neg (by omega), if_neg (by simpa using hp)]
    exact set_map_loop_ret_badrate position rate size 0 _
      (fun k _ hk2 hk3 => hsort k (by omega) hk3)
      (by obtain ⟨k, h1, h2⟩ := hex; exact ⟨k, Nat.zero_le k, by omega, h2⟩)
  · rintro ⟨h1, h2, h3, h4⟩
    rw [mutgen_set_map]
    rw [if_neg (by omega), if_neg (by simpa using h2)]
    exact set_map_loop_ret_none position rate size 0 _
      fun k hk1 hk2 => ⟨fun h0 => h3 k (by omega) h0, h4 k (by omega)⟩

/-- C6 witness: a concrete valid request succeeds, and concrete invalid
requests fail with the documented error kinds. -/
theorem C6_set_map_validation_witness :
    (mutgen_set_map 0 ⟨0, [], []⟩ 1 [0] [1]).1 = none ∧
    (mutgen_set_map 0 ⟨0, [], []⟩ 0 [] []).1 =
      some MspError.badMutationMapSize ∧
    (mutgen_set_map 0 ⟨0, [], []⟩ 1 [5] [1]).1 =
      some MspError.badMutationMapPosition ∧
    (mutgen_set_map 0 ⟨0, [], []⟩ 3 [0, 1, 1] [1, 1, 1]).1 =
      some MspError.badMutationMapPosition ∧
    (mutgen_set_map 0 ⟨0, [], []⟩ 2 [0, 1] [1, -1]).1 =
      some MspError.badMutationMapRate :=
  ⟨(C6_set_map_validation 0 ⟨0, [], []⟩ 1 [0] [1]).2.2.2.2
      ⟨by decide, by decide, by decide, by decide⟩,
   (C6_set_map_validation 0 ⟨0, [], []⟩ 0 [] []).1 rfl,
   (C6_set_map_validation 0 ⟨0, [], []⟩ 1 [5] [1]).2.1 (by decide) (by decide),
   (C6_set_map_validation 0 ⟨0, [], []⟩ 3 [0, 1, 1] [1, 1, 1]).2.2.1
      (by decide) (by decide) ⟨2, by decide, by decide, by decide⟩
      (by decide),
   (C6_set_map_validation 0 ⟨0, [], []⟩ 2 [0, 1] [1, -1]).2.2.2.1
      (by decide) (by decide) (by decide) ⟨1, by decide, by decide⟩⟩

/-- C3 counterexample: a failing `set_map` call does not leave the previous
map unmodified.  The map `{size 2, positions [0, 1], rates [5, 7]}` is
installed; a `set_map` request with a non-increasing position pair fails
with `badMutationMapPosition`, yet afterwards the stored map has size 3 and
freshly reallocated arrays — the old map is gone. -/
theorem C3_set_map_not_atomic_counterexample :
    (mutgen_set_map 0 ⟨2, [0, 1, 0], [5, 7]⟩ 3 [0, 1, 1] [1, 1, 1]).1 =
      some MspError.badMutationMapPosition ∧
    (mutgen_set_map 0 ⟨2, [0, 1, 0], [5, 7]⟩ 3 [0, 1, 1] [1, 1, 1]).2 ≠
      (⟨2, [0, 1, 0], [5, 7]⟩ : rate_map_t) ∧
    (mutgen_set_map 0 ⟨2, [0, 1, 0], [5, 7]⟩ 3 [0, 1, 1] [1, 1, 1]).2.size =
      3 := by
  refine ⟨by decide, by decide, by decide⟩

/-- C3 amended: `mutgen_set_map` is not atomic.  On every call (succeeding
or failing) the previous backing arrays are freed and replaced by freshly
allocated arrays of the new lengths (`size + 1` positions, `size` rates)
before any validation runs, and once the two early checks pass the stored
`size` field has already been overwritten with the requested size, so a
failure inside the per-entry loop leaves the new size and a partially
written prefix, not the previous map. -/
theorem C3_set_map_not_atomic (junk : ℚ) (self : rate_map_t) (size : Nat)
    (position rate : List ℚ) :
    (mutgen_set_map junk self size position rate).2.position.length =
      size + 1 ∧
    (mutgen_set_map junk self size position rate).2.rate.length = size ∧
    (1 ≤ size → position.getD 0 0 = 0 →
      (mutgen_set_map junk self size position rate).2.size = size) := by
  rw [mutgen_set_map]
  by_cases hs : size < 1
  · rw [if_pos hs]
    refine ⟨by simp, by simp, ?_⟩
    intro h1 _
    omega
  · rw [if_neg hs]
    by_cases hp : position.getD 0 0 ≠ 0
    · rw [if_pos hp]
      refine ⟨by simp, by simp, ?_⟩
      intro _ hp0
      exact absurd hp0 hp
    · rw [if_neg hp]
      have hst := set_map_loop_state position rate size 0
        ⟨size, List.replicate (size + 1) junk, List.replicate size junk⟩
      refine ⟨?_, ?_, fun _ _ => ?_⟩
      · rw [hst.2.1]; simp
      · rw [hst.2.2]; simp
      · exact hst.1

/-- C5: when the table collection passes the integrity check but the rate
map's last breakpoint is at or beyond the sequence length, `mutgen_generate`
fails with `incompatibleMutationMap` at the start of the pass: the external
tables are returned untouched and the registry is still empty — nothing has
been imported and no mutation has been sampled. -/
theorem C5_incompatible_map (L : layout_t) (fuel rej_fuel : Nat)
    (self : mutgen_t) (rng : gsl_rng) (tables : tsk_table_collection_t)
    (keep_sites : Bool)
    (hint : tsk_table_collection_check_integrity tables = true)
    (hsize : 1 ≤ self.map.size)
    (hlast : self.map.position.getD (self.map.size - 1) 0 ≥
      tables.sequence_length) :
    (mutgen_generate L fuel rej_fuel self rng tables keep_sites).1 =
      some MspError.incompatibleMutationMap ∧
    (mutgen_generate L fuel rej_fuel self rng tables keep_sites).2.2.2 =
      tables ∧
    (mutgen_generate L fuel rej_fuel self rng tables keep_sites).2.1.sites =
      [] := by
  rw [mutgen_generate]
  have h1 : ¬ ¬ tsk_table_collection_check_integrity tables = true := by
    simp [hint]
  rw [if_neg h1]
  have h2 : (mutgen_setup L self tables).map.position.getD
      ((mutgen_setup L self tables).map.size - 1) 0 ≥
      tables.sequence_length := by
    show (self.map.position.set self.map.size tables.sequence_length).getD
      (self.map.size - 1) 0 ≥ tables.sequence_length
    have hne : self.map.size ≠ self.map.size - 1 := by omega
    simp only [List.getD, List.get?_eq_getElem?, List.getElem?_set_ne hne]
    simpa [List.getD] using hlast
  rw [if_pos h2]
  exact ⟨rfl, rfl, rfl⟩

/-- C5 witness: a concrete map whose last breakpoint (0) reaches the
sequence length (0) makes `generate` fail with `incompatibleMutationMap`
and leave the tables untouched. -/
theorem C5_incompatible_map_witness :
    (mutgen_generate ⟨64, 40, 56⟩ 10 10
      ⟨0, 0, 1, 0, ⟨1, [0, 0], [0]⟩, []⟩
      ⟨fun _ _ => 0, fun _ a _ => a, fun _ _ => 0, 0⟩
      ⟨0, ⟨[]⟩, ⟨[], [], [], []⟩, empty_site_table, empty_mutation_table⟩
      false).1 = some MspError.incompatibleMutationMap :=
  (C5_incompatible_map ⟨64, 40, 56⟩ 10 10
    ⟨0, 0, 1, 0, ⟨1, [0, 0], [0]⟩, []⟩
    ⟨fun _ _ => 0, fun _ a _ => a, fun _ _ => 0, 0⟩
    ⟨0, ⟨[]⟩, ⟨[], [], [], []⟩, empty_site_table, empty_mutation_table⟩
    false (by decide) (by decide) (by decide)).1

/-! ## Registry lemmas -/

/-- A successful AVL insertion yields a permutation of the site pushed onto
the old registry. -/
theorem avl_insert_site_perm :
    ∀ (sites : List tsk_site_t) (s : tsk_site_t) (sites' : List tsk_site_t),
      avl_insert_site sites s = some sites' → sites'.Perm (s :: sites) := by
  intro sites
  induction sites with
  | nil =>
    intro s sites' h
    rw [avl_insert_site] at h
    cases h
    exact List.Perm.refl _
  | cons t rest ih =>
    intro s sites' h
    rw [avl_insert_site] at h
    by_cases h1 : s.position < t.position
    · rw [if_pos h1] at h
      cases h
      exact List.Perm.refl _
    · rw [if_neg h1] at h
      by_cases h2 : s.position = t.position
      · rw [if_pos h2] at h
        cases h
      · rw [if_neg h2] at h
        cases hr : avl_insert_site rest s with
        | none => rw [hr] at h; cases h
        | some rest' =>
          rw [hr] at h
          simp only [Option.map_some', Option.some.injEq] at h
          subst h
          exact ((ih s rest' hr).cons t).trans (List.Perm.swap s t rest)

/-- The registry ordering invariant: sites strictly increasing by position. -/
def sites_sorted (sites : List tsk_site_t) : Prop :=
  sites.Pairwise fun a b => a.position < b.position

/-- A successful AVL insertion preserves the strict position ordering of the
registry. -/
theorem avl_insert_site_sorted :
    ∀ (sites : List tsk_site_t) (s : tsk_site_t) (sites' : List tsk_site_t),
      avl_insert_site sites s = some sites' → sites_sorted sites →
      sites_sorted sites' := by
  intro sites
  induction sites with
  | nil =>
    intro s sites' h _
    rw [avl_insert_site] at h
    cases h
    exact List.pairwise_singleton _ _
  | cons t rest ih =>
    intro s sites' h hsort
    rw [avl_insert_site] at h
    by_cases h1 : s.position < t.position
    · rw [if_pos h1] at h
      cases h
      refine List.Pairwise.cons ?_ hsort
      intro x hx
      rcases List.mem_cons.mp hx with hx | hx
      · rw [hx]; exact h1
      · exact h1.trans (List.rel_of_pairwise_cons hsort hx)
    · rw [if_neg h1] at h
      by_cases h2 : s.position = t.position
      · rw [if_pos h2] at h
        cases h
      · rw [if_neg h2] at h
        cases hr : avl_insert_site rest s with
        | none => rw [hr] at h; cases h
        | some rest' =>
          rw [hr] at h
          simp only [Option.map_some', Option.some.injEq] at h
          subst h
          have hts : t.position < s.position :=
            lt_of_le_of_ne (not_lt.mp h1) fun hh => h2 hh.symm
          refine List.Pairwise.cons ?_ (ih s rest' hr hsort.of_cons)
          intro x hx
          have hx' := (avl_insert_site_perm rest s rest' hr).mem_iff.mp hx
          rcases List.mem_cons.mp hx' with hx' | hx'
          · rw [hx']; exact hts
          · exact List.rel_of_pairwise_cons hsort hx'

/-- The shape of every site inserted by the sampling path
(`mutgen_add_mutation`): a fresh single-mutation site whose mutation is
generated (`id = 0`) with a null parent. -/
def fresh_site (s : tsk_site_t) : Prop :=
  ∃ node der, s.mutations =
    [{ id := 0, node := node, parent := TSK_NULL, derived_state := der,
       metadata := [] }]

/-- The shape of every site inserted by the import path: all its mutations
carry the imported flag (`id = 1`). -/
def imported_site (s : tsk_site_t) : Prop :=
  ∀ m ∈ s.mutations, m.id = 1

/-- A registry predicate preserved by inserting fresh sites is preserved by
`mutgen_add_mutation`. -/
theorem mutgen_add_mutation_pres (P : List tsk_site_t → Prop)
    (hP : ∀ sites s sites', P sites → fresh_site s →
      avl_insert_site sites s = some sites' → P sites')
    (L : layout_t) (self : mutgen_t) (node : Int) (position : ℚ)
    (a d : Char) (h : P self.sites) :
    P (mutgen_add_mutation L self node position a d).2.sites := by
  rw [mutgen_add_mutation]
  by_cases hm : ¬ (tsk_blkalloc_ok self.block_size L.sizeof_site &&
      tsk_blkalloc_ok self.block_size L.sizeof_mutation &&
      tsk_blkalloc_ok self.block_size L.sizeof_avl_node : Bool)
  · rw [if_pos hm]; exact h
  · rw [if_neg hm]
    cases hins : avl_insert_site self.sites
        ⟨position, [a], [], [⟨0, node, TSK_NULL, [d], []⟩]⟩ with
    | none => simp only [hins]; exact h
    | some sites' =>
      simp only [hins]
      exact hP _ _ _ h ⟨node, [d], rfl⟩ hins

/-- A registry predicate preserved by fresh insertions is preserved by the
per-mutation sampling loop. -/
theorem branch_mut_loop_pres (P : List tsk_site_t → Prop)
    (hP : ∀ sites s sites', P sites → fresh_site s →
      avl_insert_site sites s = some sites' → P sites')
    (L : layout_t) (rej_fuel : Nat) (child : Int) (a b : ℚ)
    (types : List (Char × Char)) :
    ∀ n self rng, P self.sites →
      P (branch_mut_loop L rej_fuel child a b types n self rng).2.1.sites := by
  intro n
  induction n with
  | zero => intro self rng h; exact h
  | succ n ih =>
    intro self rng h
    rw [branch_mut_loop]
    cases hrl : rejection_loop self.sites a b rng rej_fuel with
    | none => exact h
    | some v =>
      obtain ⟨position, rng1⟩ := v
      have hadd := mutgen_add_mutation_pres P hP L self child position
        (types.getD (gsl_rng_uniform_int rng1 types.length).1 ('0', '1')).1
        (types.getD (gsl_rng_uniform_int rng1 types.length).1 ('0', '1')).2 h
      cases hA : mutgen_add_mutation L self child position
          (types.getD (gsl_rng_uniform_int rng1 types.length).1 ('0', '1')).1
          (types.getD (gsl_rng_uniform_int rng1 types.length).1 ('0', '1')).2 with
      | mk ret self' =>
        rw [hA] at hadd
        cases ret with
        | none => simp only [hA]; exact ih self' _ hadd
        | some e => simp only [hA]; exact hadd

/-- A registry predicate preserved by fresh insertions is preserved by the
sub-interval loop. -/
theorem interval_loop_pres (P : List tsk_site_t → Prop)
    (hP : ∀ sites s sites', P sites → fresh_site s →
      avl_insert_site sites s = some sites' → P sites')
    (L : layout_t) (rej_fuel : Nat) (types : List (Char × Char))
    (child : Int) (branch_length left edge_right : ℚ) :
    ∀ fuel map_index right0 self rng, P self.sites →
      P (interval_loop L rej_fuel types child branch_length left edge_right
          fuel map_index right0 self rng).2.1.sites := by
  intro fuel
  induction fuel with
  | zero =>
    intro map_index right0 self rng h
    rw [interval_loop]
    by_cases he : right0 = edge_right
    · rw [if_pos he]; exact h
    · rw [if_neg he]; exact h
  | succ fuel ih =>
    intro map_index right0 self rng h
    rw [interval_loop]
    by_cases he : right0 = edge_right
    · rw [if_pos he]; exact h
    · rw [if_neg he]
      have hbm := branch_mut_loop_pres P hP L rej_fuel child left
        (min edge_right (self.map.position.getD (map_index + 1) 0)) types
        (gsl_ran_poisson rng (branch_length *
          (min edge_right (self.map.position.getD (map_index + 1) 0) - left) *
          self.map.rate.getD map_index 0)).1 self
        (gsl_ran_poisson rng (branch_length *
          (min edge_right (self.map.position.getD (map_index + 1) 0) - left) *
          self.map.rate.getD map_index 0)).2 h
      cases hB : branch_mut_loop L rej_fuel child left
          (min edge_right (self.map.position.getD (map_index + 1) 0)) types
          (gsl_ran_poisson rng (branch_length *
            (min edge_right (self.map.position.getD (map_index + 1) 0) - left) *
            self.map.rate.getD map_index 0)).1 self
          (gsl_ran_poisson rng (branch_length *
            (min edge_right (self.map.position.getD (map_index + 1) 0) - left) *
            self.map.rate.getD map_index 0)).2 with
      | mk ret rest =>
        obtain ⟨self', rng'⟩ := rest
        rw [hB] at hbm
        cases ret with
        | none => simp only [hB]; exact ih (map_index + 1) _ self' rng' hbm
        | some e => simp only [hB]; exact hbm

/-- A registry predicate preserved by fresh insertions is preserved by the
edge loop. -/
theorem edge_loop_pres (P : List tsk_site_t → Prop)
    (hP : ∀ sites s sites', P sites → fresh_site s →
      avl_insert_site sites s = some sites' → P sites')
    (L : layout_t) (fuel rej_fuel : Nat) (types : List (Char × Char))
    (nodes : tsk_node_table_t) (edges : tsk_edge_table_t)
    (start_time end_time : ℚ) :
    ∀ todo j self rng, P self.sites →
      P (edge_loop L fuel rej_fuel types nodes edges start_time end_time
          j todo self rng).2.1.sites := by
  intro todo
  induction todo with
  | zero => intro j self rng h; exact h
  | succ todo ih =>
    intro j self rng h
    rw [edge_loop]
    have hil := interval_loop_pres P hP L rej_fuel types (edges.child.getD j 0)
      (min end_time (nodes.time.getD (edges.parent.getD j 0).toNat 0) -
        max start_time (nodes.time.getD (edges.child.getD j 0).toNat 0))
      (edges.left.getD j 0) (edges.right.getD j 0) fuel
      (if self.map.position.getD (tsk_search_sorted self.map.position
          self.map.size (edges.left.getD j 0)) 0 > edges.left.getD j 0 then
        tsk_search_sorted self.map.position self.map.size
          (edges.left.getD j 0) - 1
      else tsk_search_sorted self.map.position self.map.size
        (edges.left.getD j 0)) 0 self rng h
    cases hI : interval_loop L rej_fuel types (edges.child.getD j 0)
        (min end_time (nodes.time.getD (edges.parent.getD j 0).toNat 0) -
          max start_time (nodes.time.getD (edges.child.getD j 0).toNat 0))
        (edges.left.getD j 0) (edges.right.getD j 0) fuel
        (if self.map.position.getD (tsk_search_sorted self.map.position
            self.map.size (edges.left.getD j 0)) 0 > edges.left.getD j 0 then
          tsk_search_sorted self.map.position self.map.size
            (edges.left.getD j 0) - 1
        else tsk_search_sorted self.map.position self.map.size
          (edges.left.getD j 0)) 0 self rng with
    | mk ret rest =>
      obtain ⟨self', rng'⟩ := rest
      rw [hI] at hil
      cases ret with
      | none => simp only [hI]; exact ih (j + 1) self' rng' hil
      | some e => simp only [hI]; exact hil

/-- Every mutation rehydrated from the tables carries the imported flag. -/
theorem import_mutation_row_id (bs : Nat) (mt : tsk_mutation_table_t)
    (row : Nat) (m : tsk_mutation_t)
    (h : import_mutation_row bs mt row = some m) : m.id = 1 := by
  simp only [import_mutation_row] at h
  by_cases h1 : ¬ (tsk_blkalloc_ok bs
      (mt.derived_state_offset.getD (row + 1) 0 -
        mt.derived_state_offset.getD row 0) : Bool)
  · rw [if_pos h1] at h; cases h
  · rw [if_neg h1] at h
    by_cases h2 : ¬ (tsk_blkalloc_ok bs
        (mt.metadata_offset.getD (row + 1) 0 -
          mt.metadata_offset.getD row 0) : Bool)
    · rw [if_pos h2] at h; cases h
    · rw [if_neg h2] at h
      cases h
      rfl

/-- Every mutation list built by `import_site_mutations` consists of
imported-flagged mutations. -/
theorem import_site_mutations_id (bs : Nat) (mt : tsk_mutation_table_t) :
    ∀ n start ms, import_site_mutations bs mt start n = some ms →
      ∀ m ∈ ms, m.id = 1 := by
  intro n
  induction n with
  | zero =>
    intro start ms h m hm
    rw [import_site_mutations] at h
    cases h
    cases hm
  | succ n ih =>
    intro start ms h m hm
    rw [import_site_mutations] at h
    cases h1 : import_mutation_row bs mt start with
    | none => rw [h1] at h; cases h
    | some m0 =>
      rw [h1] at h
      cases h2 : import_site_mutations bs mt (start + 1) n with
      | none => rw [h2] at h; cases h
      | some ms' =>
        rw [h2] at h
        cases h
        rcases List.mem_cons.mp hm with hm | hm
        · subst hm; exact import_mutation_row_id bs mt start m h1
        · exact ih (start + 1) ms' h2 m hm

/-- A registry predicate preserved by inserting imported sites is preserved
by the import loop. -/
theorem initialise_loop_pres (P : List tsk_site_t → Prop)
    (hP : ∀ sites s sites', P sites → imported_site s →
      avl_insert_site sites s = some sites' → P sites')
    (L : layout_t) (bs : Nat) (st : tsk_site_table_t)
    (mt : tsk_mutation_table_t) :
    ∀ todo site_id cursor sites, P sites →
      P (mutget_initialise_sites_loop L bs st mt todo site_id cursor
          sites).2 := by
  intro todo
  induction todo with
  | zero => intro site_id cursor sites h; exact h
  | succ todo ih =>
    intro site_id cursor sites h
    rw [mutget_initialise_sites_loop]
    by_cases hm1 : ¬ (tsk_blkalloc_ok bs L.sizeof_site &&
        tsk_blkalloc_ok bs L.sizeof_avl_node &&
        tsk_blkalloc_ok bs
          (run_length mt.site cursor (Int.ofNat site_id) *
            L.sizeof_mutation) : Bool)
    · rw [if_pos hm1]; exact h
    · rw [if_neg hm1]
      by_cases hm2 : ¬ (tsk_blkalloc_ok bs
          (st.ancestral_state_offset.getD (site_id + 1) 0 -
            st.ancestral_state_offset.getD site_id 0) : Bool)
      · rw [if_pos hm2]; exact h
      · rw [if_neg hm2]
        by_cases hm3 : ¬ (tsk_blkalloc_ok bs
            (st.metadata_offset.getD (site_id + 1) 0 -
              st.metadata_offset.getD site_id 0) : Bool)
        · rw [if_pos hm3]; exact h
        · rw [if_neg hm3]
          cases hims : import_site_mutations bs mt cursor
              (run_length mt.site cursor (Int.ofNat site_id)) with
          | none => simp only [hims]; exact h
          | some muts =>
            simp only [hims]
            cases hins : avl_insert_site sites
                ⟨st.position.getD site_id 0,
                 column_slice st.ancestral_state
                   (st.ancestral_state_offset.getD site_id 0)
                   (st.ancestral_state_offset.getD (site_id + 1) 0),
                 column_slice st.metadata (st.metadata_offset.getD site_id 0)
                   (st.metadata_offset.getD (site_id + 1) 0),
                 muts⟩ with
            | none => simp only [hins]; exact h
            | some sites' =>
              simp only [hins]
              refine ih (site_id + 1) _ sites' (hP _ _ _ h ?_ hins)
              intro m hm
              exact import_site_mutations_id bs mt _ cursor muts hims m hm

/-- The import phase (`mutgen_generate_keep`) preserves a registry predicate
preserved by inserting imported sites. -/
theorem generate_keep_pres (P : List tsk_site_t → Prop)
    (hP : ∀ sites s sites', P sites → imported_site s →
      avl_insert_site sites s = some sites' → P sites')
    (L : layout_t) (self : mutgen_t) (tables : tsk_table_collection_t)
    (keep_sites : Bool) (h : P self.sites) :
    P (mutgen_generate_keep L self tables keep_sites).2.sites := by
  rw [mutgen_generate_keep]
  cases keep_sites with
  | false => exact h
  | true =>
    rw [if_pos rfl]
    rw [mutget_initialise_sites]
    exact initialise_loop_pres P hP L self.block_size tables.sites
      tables.mutations tables.sites.num_rows 0 0 self.sites h

/-- The export loop appends exactly the registry's positions, in order, to
the site table. -/
theorem populate_loop_positions :
    ∀ (sites : List tsk_site_t) (nm : Int) (st : tsk_site_table_t)
      (mt : tsk_mutation_table_t),
      (mutgen_populate_tables_loop sites nm st mt).1.position =
        st.position ++ sites.map (fun s => s.position) := by
  intro sites
  induction sites with
  | nil => intro nm st mt; simp [mutgen_populate_tables_loop]
  | cons s rest ih =>
    intro nm st mt
    simp only [mutgen_populate_tables_loop]
    rw [ih]
    simp [tsk_site_table_add_row]

/-- Characterisation of a successful `mutgen_generate_phase2` run: the edge
loop succeeded and the output tables are the flush of the final registry
into freshly cleared tables. -/
theorem mutgen_generate_phase2_success (L : layout_t) (fuel rej_fuel : Nat)
    (s3 : mutgen_t) (rng : gsl_rng) (tables : tsk_table_collection_t)
    (hok : (mutgen_generate_phase2 L fuel rej_fuel s3 rng tables).1 = none) :
    ∃ s4 rng4,
      edge_loop L fuel rej_fuel
        (if s3.alphabet = 0 then binary_mutation_types
         else acgt_mutation_types)
        tables.nodes tables.edges s3.start_time s3.end_time 0
        tables.edges.num_rows s3 rng = (none, s4, rng4) ∧
      mutgen_generate_phase2 L fuel rej_fuel s3 rng tables =
        (none, s4, rng4,
          { tables with
            sites := (mutgen_populate_tables s4.sites empty_site_table
              empty_mutation_table).1,
            mutations := (mutgen_populate_tables s4.sites empty_site_table
              empty_mutation_table).2 }) := by
  rw [mutgen_generate_phase2] at hok ⊢
  cases hE : edge_loop L fuel rej_fuel
      (if s3.alphabet = 0 then binary_mutation_types
       else acgt_mutation_types)
      ({ tables with
        sites := empty_site_table,
        mutations := empty_mutation_table } : tsk_table_collection_t).nodes
      ({ tables with
        sites := empty_site_table,
        mutations := empty_mutation_table } : tsk_table_collection_t).edges
      s3.start_time s3.end_time 0
      ({ tables with
        sites := empty_site_table,
        mutations := empty_mutation_table } :
          tsk_table_collection_t).edges.num_rows s3 rng with
  | mk ret rest =>
    obtain ⟨s4, rng4⟩ := rest
    rw [hE] at hok
    cases ret with
    | some e => cases hok
    | none => exact ⟨s4, rng4, rfl, rfl⟩

/-- Characterisation of a successful `mutgen_generate` run: both phases
succeeded, starting from the cleared, re-initialised, sentinel-written
state. -/
theorem mutgen_generate_success (L : layout_t) (fuel rej_fuel : Nat)
    (self : mutgen_t) (rng : gsl_rng) (tables : tsk_table_collection_t)
    (keep_sites : Bool)
    (hok :
      (mutgen_generate L fuel rej_fuel self rng tables keep_sites).1 = none) :
    ∃ s3 s4 rng4,
      mutgen_generate_keep L (mutgen_setup L self tables) tables keep_sites =
        (none, s3) ∧
      edge_loop L fuel rej_fuel
        (if s3.alphabet = 0 then binary_mutation_types
         else acgt_mutation_types)
        tables.nodes tables.edges s3.start_time s3.end_time 0
        tables.edges.num_rows s3 rng = (none, s4, rng4) ∧
      mutgen_generate L fuel rej_fuel self rng tables keep_sites =
        (none, s4, rng4,
          { tables with
            sites := (mutgen_populate_tables s4.sites empty_site_table
              empty_mutation_table).1,
            mutations := (mutgen_populate_tables s4.sites empty_site_table
              empty_mutation_table).2 }) := by
  rw [mutgen_generate] at hok ⊢
  by_cases hI : ¬ tsk_table_collection_check_integrity tables
  · rw [if_pos hI] at hok; cases hok
  · rw [if_neg hI] at hok ⊢
    by_cases hC : (mutgen_setup L self tables).map.position.getD
        ((mutgen_setup L self tables).map.size - 1) 0 ≥
        tables.sequence_length
    · rw [if_pos hC] at hok; cases hok
    · rw [if_neg hC] at hok ⊢
      cases hK : mutgen_generate_keep L (mutgen_setup L self tables) tables
          keep_sites with
      | mk ret3 s3 =>
        rw [hK] at hok
        cases ret3 with
        | some e => cases hok
        | none =>
          obtain ⟨s4, rng4, hE, heq⟩ :=
            mutgen_generate_phase2_success L fuel rej_fuel s3 rng tables hok
          exact ⟨s3, s4, rng4, rfl, hE, heq⟩

/-- C2: after any successful `mutgen_generate` call, with or without import
mode, no two sites in the output site table share a position: the site
registry keeps sites strictly ordered by position (duplicate insertions are
rejected, sampled positions are rejection-resampled until fresh), and the
export flushes it in order. -/
theorem C2_unique_site_positions (L : layout_t) (fuel rej_fuel : Nat)
    (self : mutgen_t) (rng : gsl_rng) (tables : tsk_table_collection_t)
    (keep_sites : Bool)
    (hok :
      (mutgen_generate L fuel rej_fuel self rng tables keep_sites).1 = none) :
    (mutgen_generate L fuel rej_fuel self rng tables
      keep_sites).2.2.2.sites.position.Pairwise (· ≠ ·) := by
  obtain ⟨s3, s4, rng4, hK, hE, heq⟩ :=
    mutgen_generate_success L fuel rej_fuel self rng tables keep_sites hok
  rw [heq]
  have hsorted_step : ∀ (sites : List tsk_site_t) (s : tsk_site_t)
      (sites' : List tsk_site_t), sites_sorted sites → fresh_site s →
      avl_insert_site sites s = some sites' → sites_sorted sites' :=
    fun sites s sites' hs _ hins => avl_insert_site_sorted sites s sites' hins hs
  have h0 : sites_sorted (mutgen_setup L self tables).sites :=
    List.Pairwise.nil
  have h3 : sites_sorted s3.sites := by
    have := generate_keep_pres sites_sorted
      (fun sites s sites' hs _ hins =>
        avl_insert_site_sorted sites s sites' hins hs)
      L (mutgen_setup L self tables) tables keep_sites h0
    rw [hK] at this
    exact this
  have h4 : sites_sorted s4.sites := by
    have := edge_loop_pres sites_sorted hsorted_step L fuel rej_fuel
      (if s3.alphabet = 0 then binary_mutation_types
       else acgt_mutation_types)
      tables.nodes tables.edges s3.start_time s3.end_time
      tables.edges.num_rows 0 s3 rng h3
    rw [hE] at this
    exact this
  show (mutgen_populate_tables s4.sites empty_site_table
    empty_mutation_table).1.position.Pairwise (· ≠ ·)
  have hpos : (mutgen_populate_tables s4.sites empty_site_table
      empty_mutation_table).1.position =
      s4.sites.map (fun s => s.position) := by
    rw [mutgen_populate_tables, populate_loop_positions]
    rfl
  rw [hpos, List.pairwise_map]
  exact h4.imp fun h => ne_of_lt h

/-! ## Export parent-shift lemmas (`mutgen_populate_tables`) -/

/-- The parent column emitted for a run of mutations starting with shift
counter `nm`: a non-null stored parent is shifted by the current counter,
and the counter increments after each generated (`id = 0`) mutation. -/
def emitted_parents : Int → List tsk_mutation_t → List Int
  | _, [] => []
  | nm, m :: rest =>
    (if m.parent ≠ TSK_NULL then m.parent + nm else m.parent) ::
      emitted_parents (if m.id = 0 then nm + 1 else nm) rest

theorem emitted_parents_length :
    ∀ (ms : List tsk_mutation_t) (nm : Int),
      (emitted_parents nm ms).length = ms.length := by
  intro ms
  induction ms with
  | nil => intro nm; rfl
  | cons m rest ih =>
    intro nm
    rw [emitted_parents]
    simp [ih]

theorem emitted_parents_append :
    ∀ (ms1 ms2 : List tsk_mutation_t) (nm : Int),
      emitted_parents nm (ms1 ++ ms2) =
        emitted_parents nm ms1 ++
          emitted_parents (nm + (ms1.countP fun m => m.id == 0)) ms2 := by
  intro ms1
  induction ms1 with
  | nil => intro ms2 nm; simp [emitted_parents]
  | cons m rest ih =>
    intro ms2 nm
    rw [List.cons_append, emitted_parents, emitted_parents, ih]
    have hc : ((m :: rest).countP fun m => m.id == 0 : Int) =
        (if m.id = 0 then 1 else 0) + (rest.countP fun m => m.id == 0) := by
      rw [List.countP_cons]
      by_cases h : m.id = 0
      · simp [h]
        omega
      · simp [h]
    rw [List.cons_append]
    congr 2
    rw [hc]
    by_cases h : m.id = 0
    · rw [if_pos h, if_pos h, add_assoc]
    · rw [if_neg h, if_neg h, zero_add]

theorem emitted_parents_getD (d : tsk_mutation_t) :
    ∀ (ms : List tsk_mutation_t) (nm : Int) (k : Nat), k < ms.length →
      (emitted_parents nm ms).getD k 0 =
        if (ms.getD k d).parent = TSK_NULL then TSK_NULL
        else (ms.getD k d).parent + nm +
          ((ms.take k).countP fun m => m.id == 0) := by
  intro ms
  induction ms with
  | nil => intro nm k hk; cases hk
  | cons m rest ih =>
    intro nm k hk
    cases k with
    | zero =>
      rw [emitted_parents]
      by_cases hp : m.parent = TSK_NULL
      · simp [hp]
      · simp [hp]
    | succ k =>
      rw [emitted_parents]
      have hk' : k < rest.length := by simpa using hk
      rw [List.getD_cons_succ, List.getD_cons_succ, List.take_succ_cons,
        ih (if m.id = 0 then nm + 1 else nm) k hk']
      by_cases hp : (rest.getD k d).parent = TSK_NULL
      · rw [if_pos hp, if_pos hp]
      · rw [if_neg hp, if_neg hp]
        have hc : ((m :: rest.take k).countP fun m => m.id == 0 : Int) =
            (if m.id = 0 then 1 else 0) +
              ((rest.take k).countP fun m => m.id == 0) := by
          rw [List.countP_cons]
          by_cases h : m.id = 0
          · simp [h]
            omega
          · simp [h]
        rw [hc]
        by_cases h : m.id = 0
        · rw [if_pos h, if_pos h]
          omega
        · rw [if_neg h, if_neg h]
          omega

/-- `emit_site_mutations` appends exactly the shifted parent column and adds
the number of generated mutations of the run to the shift counter. -/
theorem emit_site_mutations_spec (site_id : Int) :
    ∀ (ms : List tsk_mutation_t) (nm : Int) (mt : tsk_mutation_table_t),
      (emit_site_mutations site_id ms nm mt).1.parent =
        mt.parent ++ emitted_parents nm ms ∧
      (emit_site_mutations site_id ms nm mt).2 =
        nm + (ms.countP fun m => m.id == 0) := by
  intro ms
  induction ms with
  | nil => intro nm mt; simp [emit_site_mutations, emitted_parents]
  | cons m rest ih =>
    intro nm mt
    rw [emit_site_mutations]
    have hi := ih (if m.id = 0 then nm + 1 else nm)
      (tsk_mutation_table_add_row mt site_id m.node
        (if m.parent ≠ TSK_NULL then m.parent + nm else m.parent)
        m.derived_state m.metadata).1
    refine ⟨?_, ?_⟩
    · rw [hi.1, emitted_parents]
      simp [tsk_mutation_table_add_row]
    · rw [hi.2]
      have hc : ((m :: rest).countP fun m => m.id == 0 : Int) =
          (if m.id = 0 then 1 else 0) +
            (rest.countP fun m => m.id == 0) := by
        rw [List.countP_cons]
        by_cases h : m.id = 0
        · simp [h]
          omega
        · simp [h]
      rw [hc]
      by_cases h : m.id = 0
      · rw [if_pos h, if_pos h, add_assoc]
      · rw [if_neg h, if_neg h, zero_add]

/-- The export loop appends exactly the shifted parent column of the
registry's flattened mutation list. -/
theorem populate_loop_parents :
    ∀ (sites : List tsk_site_t) (nm : Int) (st : tsk_site_table_t)
      (mt : tsk_mutation_table_t),
      (mutgen_populate_tables_loop sites nm st mt).2.parent =
        mt.parent ++ emitted_parents nm (sites.flatMap fun s => s.mutations) := by
  intro sites
  induction sites with
  | nil => intro nm st mt; simp [mutgen_populate_tables_loop, emitted_parents]
  | cons s rest ih =>
    intro nm st mt
    simp only [mutgen_populate_tables_loop]
    rw [ih, (emit_site_mutations_spec _ s.mutations nm mt).1,
      (emit_site_mutations_spec _ s.mutations nm mt).2,
      List.flatMap_cons, emitted_parents_append, List.append_assoc]

/-- The registry invariant behind C1: every generated mutation in the
registry has a null parent. -/
def gen_null_parent (sites : List tsk_site_t) : Prop :=
  ∀ s ∈ sites, ∀ m ∈ s.mutations, m.id = 0 → m.parent = TSK_NULL

theorem gen_null_parent_fresh_step :
    ∀ (sites : List tsk_site_t) (s : tsk_site_t) (sites' : List tsk_site_t),
      gen_null_parent sites → fresh_site s →
      avl_insert_site sites s = some sites' → gen_null_parent sites' := by
  intro sites s sites' h hf hins x hx m hm hid
  rcases List.mem_cons.mp
      ((avl_insert_site_perm sites s sites' hins).mem_iff.mp hx) with hx' | hx'
  · subst hx'
    obtain ⟨node, der, hms⟩ := hf
    rw [hms] at hm
    rcases List.mem_singleton.mp hm with rfl
    rfl
  · exact h x hx' m hm hid

theorem gen_null_parent_imported_step :
    ∀ (sites : List tsk_site_t) (s : tsk_site_t) (sites' : List tsk_site_t),
      gen_null_parent sites → imported_site s →
      avl_insert_site sites s = some sites' → gen_null_parent sites' := by
  intro sites s sites' h hf hins x hx m hm hid
  rcases List.mem_cons.mp
      ((avl_insert_site_perm sites s sites' hins).mem_iff.mp hx) with hx' | hx'
  · subst hx'
    have h1 := hf m hm
    rw [h1] at hid
    cases hid
  · exact h x hx' m hm hid

/-- The parent column flushed by `mutgen_populate_tables` into a cleared
mutation table, characterised row by row: a generated row is emitted with a
null parent, and an imported row's non-null parent is shifted by the number
of generated rows emitted before it. -/
theorem populate_parent_spec (sites : List tsk_site_t) (d : tsk_mutation_t)
    (hnull : gen_null_parent sites) :
    (mutgen_populate_tables sites empty_site_table
      empty_mutation_table).2.parent.length =
      (sites.flatMap fun s => s.mutations).length ∧
    ∀ k, k < (sites.flatMap fun s => s.mutations).length →
      (((sites.flatMap fun s => s.mutations).getD k d).id = 0 →
        (mutgen_populate_tables sites empty_site_table
          empty_mutation_table).2.parent.getD k 0 = TSK_NULL) ∧
      (((sites.flatMap fun s => s.mutations).getD k d).id ≠ 0 →
        ((sites.flatMap fun s => s.mutations).getD k d).parent ≠ TSK_NULL →
        (mutgen_populate_tables sites empty_site_table
          empty_mutation_table).2.parent.getD k 0 =
          ((sites.flatMap fun s => s.mutations).getD k d).parent +
            (((sites.flatMap fun s => s.mutations).take k).countP
              fun m => m.id == 0)) := by
  have hpar : (mutgen_populate_tables sites empty_site_table
      empty_mutation_table).2.parent =
      emitted_parents 0 (sites.flatMap fun s => s.mutations) := by
    rw [mutgen_populate_tables, populate_loop_parents]
    rfl
  refine ⟨by rw [hpar, emitted_parents_length], ?_⟩
  intro k hk
  have hget := emitted_parents_getD d (sites.flatMap fun s => s.mutations) 0 k hk
  constructor
  · intro hid
    have hmem : (sites.flatMap fun s => s.mutations).getD k d ∈
        sites.flatMap fun s => s.mutations := by
      rw [List.getD_eq_getElem _ d hk]
      exact List.getElem_mem hk
    obtain ⟨s, hs, hm⟩ := List.mem_flatMap.mp hmem
    have hparent := hnull s hs _ hm hid
    rw [hpar, hget, if_pos hparent]
  · intro _ hp
    rw [hpar, hget, if_neg hp, add_zero]

/-- C1: after a successful `mutgen_generate`, every generated mutation in
the final registry has a null parent, and the exported mutation table's
parent column emits generated mutations with null parents and shifts every
imported mutation's non-null parent forward by the number of generated
mutations emitted before it (the shift counter having incremented exactly
once per emitted generated mutation). -/
theorem C1_export_parent_shift (L : layout_t) (fuel rej_fuel : Nat)
    (self : mutgen_t) (rng : gsl_rng) (tables : tsk_table_collection_t)
    (keep_sites : Bool) (d : tsk_mutation_t)
    (hok :
      (mutgen_generate L fuel rej_fuel self rng tables keep_sites).1 = none) :
    (∀ m ∈ (mutgen_generate L fuel rej_fuel self rng tables
        keep_sites).2.1.sites.flatMap (fun s => s.mutations),
      m.id = 0 → m.parent = TSK_NULL) ∧
    (mutgen_generate L fuel rej_fuel self rng tables
      keep_sites).2.2.2.mutations.parent.length =
      ((mutgen_generate L fuel rej_fuel self rng tables
        keep_sites).2.1.sites.flatMap fun s => s.mutations).length ∧
    ∀ k, k < ((mutgen_generate L fuel rej_fuel self rng tables
        keep_sites).2.1.sites.flatMap fun s => s.mutations).length →
      ((((mutgen_generate L fuel rej_fuel self rng tables
          keep_sites).2.1.sites.flatMap fun s => s.mutations).getD k d).id =
            0 →
        (mutgen_generate L fuel rej_fuel self rng tables
          keep_sites).2.2.2.mutations.parent.getD k 0 = TSK_NULL) ∧
      ((((mutgen_generate L fuel rej_fuel self rng tables
          keep_sites).2.1.sites.flatMap fun s => s.mutations).getD k d).id ≠
            0 →
        (((mutgen_generate L fuel rej_fuel self rng tables
          keep_sites).2.1.sites.flatMap fun s => s.mutations).getD
            k d).parent ≠ TSK_NULL →
        (mutgen_generate L fuel rej_fuel self rng tables
          keep_sites).2.2.2.mutations.parent.getD k 0 =
          (((mutgen_generate L fuel rej_fuel self rng tables
            keep_sites).2.1.sites.flatMap fun s => s.mutations).getD
              k d).parent +
            ((((mutgen_generate L fuel rej_fuel self rng tables
              keep_sites).2.1.sites.flatMap fun s => s.mutations).take
                k).countP fun m => m.id == 0)) := by
  obtain ⟨s3, s4, rng4, hK, hE, heq⟩ :=
    mutgen_generate_success L fuel rej_fuel self rng tables keep_sites hok
  have h0 : gen_null_parent (mutgen_setup L self tables).sites :=
    fun s hs => absurd hs (List.not_mem_nil s)
  have h3 : gen_null_parent s3.sites := by
    have := generate_keep_pres gen_null_parent gen_null_parent_imported_step
      L (mutgen_setup L self tables) tables keep_sites h0
    rw [hK] at this
    exact this
  have h4 : gen_null_parent s4.sites := by
    have := edge_loop_pres gen_null_parent gen_null_parent_fresh_step
      L fuel rej_fuel
      (if s3.alphabet = 0 then binary_mutation_types
       else acgt_mutation_types)
      tables.nodes tables.edges s3.start_time s3.end_time
      tables.edges.num_rows 0 s3 rng h3
    rw [hE] at this
    exact this
  rw [heq]
  refine ⟨?_, (populate_parent_spec s4.sites d h4).1,
    (populate_parent_spec s4.sites d h4).2⟩
  intro m hm hid
  obtain ⟨s, hs, hm'⟩ := List.mem_flatMap.mp hm
  exact h4 s hs m hm' hid

/-! ## Error-shape lemmas for `mutgen_generate` -/

/-- The import loop's only outcomes: success, arena exhaustion, or a
duplicate site position. -/
theorem initialise_loop_err_kind (L : layout_t) (bs : Nat)
    (st : tsk_site_table_t) (mt : tsk_mutation_table_t) :
    ∀ todo site_id cursor sites,
      (mutget_initialise_sites_loop L bs st mt todo site_id cursor
          sites).1 = none ∨
      (mutget_initialise_sites_loop L bs st mt todo site_id cursor
          sites).1 = some MspError.noMemory ∨
      (mutget_initialise_sites_loop L bs st mt todo site_id cursor
          sites).1 = some MspError.duplicateSitePosition := by
  intro todo
  induction todo with
  | zero => intro site_id cursor sites; exact Or.inl rfl
  | succ todo ih =>
    intro site_id cursor sites
    rw [mutget_initialise_sites_loop]
    by_cases hm1 : ¬ (tsk_blkalloc_ok bs L.sizeof_site &&
        tsk_blkalloc_ok bs L.sizeof_avl_node &&
        tsk_blkalloc_ok bs
          (run_length mt.site cursor (Int.ofNat site_id) *
            L.sizeof_mutation) : Bool)
    · rw [if_pos hm1]; exact Or.inr (Or.inl rfl)
    · rw [if_neg hm1]
      by_cases hm2 : ¬ (tsk_blkalloc_ok bs
          (st.ancestral_state_offset.getD (site_id + 1) 0 -
            st.ancestral_state_offset.getD site_id 0) : Bool)
      · rw [if_pos hm2]; exact Or.inr (Or.inl rfl)
      · rw [if_neg hm2]
        by_cases hm3 : ¬ (tsk_blkalloc_ok bs
            (st.metadata_offset.getD (site_id + 1) 0 -
              st.metadata_offset.getD site_id 0) : Bool)
        · rw [if_pos hm3]; exact Or.inr (Or.inl rfl)
        · rw [if_neg hm3]
          cases hims : import_site_mutations bs mt cursor
              (run_length mt.site cursor (Int.ofNat site_id)) with
          | none => simp [hims]
          | some muts =>
            simp only [hims]
            cases hins : avl_insert_site sites
                ⟨st.position.getD site_id 0,
                 column_slice st.ancestral_state
                   (st.ancestral_state_offset.getD site_id 0)
                   (st.ancestral_state_offset.getD (site_id + 1) 0),
                 column_slice st.metadata (st.metadata_offset.getD site_id 0)
                   (st.metadata_offset.getD (site_id + 1) 0),
                 muts⟩ with
            | none => simp [hins]
            | some sites' => simp only [hins]; exact ih (site_id + 1) _ sites'

/-- On any error, `mutgen_generate_phase2` returns the cleared tables. -/
theorem mutgen_generate_phase2_err (L : layout_t) (fuel rej_fuel : Nat)
    (s3 : mutgen_t) (rng : gsl_rng) (tables : tsk_table_collection_t)
    (he : (mutgen_generate_phase2 L fuel rej_fuel s3 rng tables).1 ≠ none) :
    (mutgen_generate_phase2 L fuel rej_fuel s3 rng
      tables).2.2.2.sites = empty_site_table ∧
    (mutgen_generate_phase2 L fuel rej_fuel s3 rng
      tables).2.2.2.mutations = empty_mutation_table := by
  rw [mutgen_generate_phase2] at he ⊢
  cases hE : edge_loop L fuel rej_fuel
      (if s3.alphabet = 0 then binary_mutation_types
       else acgt_mutation_types)
      ({ tables with
        sites := empty_site_table,
        mutations := empty_mutation_table } : tsk_table_collection_t).nodes
      ({ tables with
        sites := empty_site_table,
        mutations := empty_mutation_table } : tsk_table_collection_t).edges
      s3.start_time s3.end_time 0
      ({ tables with
        sites := empty_site_table,
        mutations := empty_mutation_table } :
          tsk_table_collection_t).edges.num_rows s3 rng with
  | mk ret rest =>
    obtain ⟨s4, rng4⟩ := rest
    rw [hE] at he
    cases ret with
    | some e => exact ⟨rfl, rfl⟩
    | none => exact absurd rfl he

/-- The import phase never reports the sampling loops' divergence error. -/
theorem generate_keep_not_stuck (L : layout_t) (self : mutgen_t)
    (tables : tsk_table_collection_t) (keep_sites : Bool) :
    (mutgen_generate_keep L self tables keep_sites).1 ≠
      some MspError.stuck := by
  rw [mutgen_generate_keep]
  cases keep_sites with
  | false => intro h; cases h
  | true =>
    rw [if_pos rfl, mutget_initialise_sites]
    rcases initialise_loop_err_kind L self.block_size tables.sites
        tables.mutations tables.sites.num_rows 0 0 self.sites with h | h | h <;>
      rw [h] <;> intro hc <;> cases hc

/-- C9: `mutgen_generate` clears the external site and mutation tables after
the import preload and before any mutation is sampled, regardless of the
keep flag.  Consequently an error raised during or after the sampling phase
leaves empty output tables — the pre-call rows are gone — and a successful
run returns tables rebuilt from scratch out of the in-memory registry. -/
theorem C9_tables_cleared_before_sampling (L : layout_t)
    (fuel rej_fuel : Nat) (self : mutgen_t) (rng : gsl_rng)
    (tables : tsk_table_collection_t) (keep_sites : Bool) :
    (∀ e, keep_sites = false →
      (mutgen_generate L fuel rej_fuel self rng tables keep_sites).1 =
        some e →
      e ≠ MspError.tskError → e ≠ MspError.incompatibleMutationMap →
      (mutgen_generate L fuel rej_fuel self rng tables
        keep_sites).2.2.2.sites = empty_site_table ∧
      (mutgen_generate L fuel rej_fuel self rng tables
        keep_sites).2.2.2.mutations = empty_mutation_table) ∧
    ((mutgen_generate L fuel rej_fuel self rng tables keep_sites).1 =
        some MspError.stuck →
      (mutgen_generate L fuel rej_fuel self rng tables
        keep_sites).2.2.2.sites = empty_site_table ∧
      (mutgen_generate L fuel rej_fuel self rng tables
        keep_sites).2.2.2.mutations = empty_mutation_table) ∧
    ((mutgen_generate L fuel rej_fuel self rng tables keep_sites).1 =
        none →
      (mutgen_generate L fuel rej_fuel self rng tables
        keep_sites).2.2.2.sites =
        (mutgen_populate_tables (mutgen_generate L fuel rej_fuel self rng
          tables keep_sites).2.1.sites empty_site_table
          empty_mutation_table).1 ∧
      (mutgen_generate L fuel rej_fuel self rng tables
        keep_sites).2.2.2.mutations =
        (mutgen_populate_tables (mutgen_generate L fuel rej_fuel self rng
          tables keep_sites).2.1.sites empty_site_table
          empty_mutation_table).2) := by
  refine ⟨?_, ?_, ?_⟩
  · intro e hkf he hne1 hne2
    subst hkf
    rw [mutgen_generate] at he ⊢
    by_cases hI : ¬ tsk_table_collection_check_integrity tables
    · rw [if_pos hI] at he
      exact absurd (Option.some.inj he).symm hne1
    · rw [if_neg hI] at he ⊢
      by_cases hC : (mutgen_setup L self tables).map.position.getD
          ((mutgen_setup L self tables).map.size - 1) 0 ≥
          tables.sequence_length
      · rw [if_pos hC] at he
        exact absurd (Option.some.inj he).symm hne2
      · rw [if_neg hC] at he ⊢
        have hkeq : mutgen_generate_keep L (mutgen_setup L self tables)
            tables false = (none, mutgen_setup L self tables) := rfl
        rw [hkeq] at he ⊢
        exact mutgen_generate_phase2_err L fuel rej_fuel
          (mutgen_setup L self tables) rng tables
          (by rw [he]; intro hc; cases hc)
  · intro hs
    rw [mutgen_generate] at hs ⊢
    by_cases hI : ¬ tsk_table_collection_check_integrity tables
    · rw [if_pos hI] at hs
      exact absurd (Option.some.inj hs) (by decide)
    · rw [if_neg hI] at hs ⊢
      by_cases hC : (mutgen_setup L self tables).map.position.getD
          ((mutgen_setup L self tables).map.size - 1) 0 ≥
          tables.sequence_length
      · rw [if_pos hC] at hs
        exact absurd (Option.some.inj hs) (by decide)
      · rw [if_neg hC] at hs ⊢
        cases hK : mutgen_generate_keep L (mutgen_setup L self tables)
            tables keep_sites with
        | mk ret3 s3 =>
          rw [hK] at hs
          cases ret3 with
          | some e =>
            have hne := generate_keep_not_stuck L (mutgen_setup L self tables)
              tables keep_sites
            rw [hK] at hne
            have : e = MspError.stuck := Option.some.inj hs
            subst this
            exact absurd rfl hne
          | none =>
            exact mutgen_generate_phase2_err L fuel rej_fuel s3 rng tables
              (by rw [hs]; intro hc; cases hc)
  · intro hok
    obtain ⟨s3, s4, rng4, hK, hE, heq⟩ :=
      mutgen_generate_success L fuel rej_fuel self rng tables keep_sites hok
    rw [heq]
    exact ⟨rfl, rfl⟩

/-! ## Arena sizing: the import path cannot exhaust a block (C8) -/

theorem zip_all_le_getLastD :
    ∀ l : List Nat,
      ((l.zip l.tail).all fun p => decide (p.1 ≤ p.2)) = true →
      ∀ i, l.getD i 0 ≤ l.getLastD 0 := by
  intro l
  induction l with
  | nil => intro _ i; simp
  | cons a l ih =>
    intro h i
    cases l with
    | nil =>
      cases i with
      | zero => simp
      | succ i => simp
    | cons b rest =>
      have h' : (((b :: rest).zip (b :: rest).tail).all
          fun p => decide (p.1 ≤ p.2)) = true := by
        simp only [List.tail_cons, List.zip_cons_cons, List.all_cons,
          Bool.and_eq_true] at h
        exact h.2
      have hab : a ≤ b := by
        simp only [List.tail_cons, List.zip_cons_cons, List.all_cons,
          Bool.and_eq_true, decide_eq_true_eq] at h
        exact h.1
      cases i with
      | zero =>
        have hb := ih h' 0
        simp only [List.getD_cons_zero] at hb ⊢
        calc a ≤ b := hab
          _ ≤ (b :: rest).getLastD 0 := hb
          _ = (a :: b :: rest).getLastD 0 := by simp
      | succ i =>
        have := ih h' i
        simpa using this

/-- With consistent offsets every offset entry is bounded by the column's
total byte length. -/
theorem offsets_getD_le (n col_len : Nat) (off : List Nat)
    (h : offsets_ok n col_len off = true) : ∀ i, off.getD i 0 ≤ col_len := by
  intro i
  have h' := h
  simp only [offsets_ok, Bool.and_eq_true, decide_eq_true_eq] at h'
  obtain ⟨⟨⟨_, _⟩, hlast⟩, hmono⟩ := h'
  calc off.getD i 0 ≤ off.getLastD 0 := zip_all_le_getLastD off hmono i
    _ = col_len := hlast

/-- Under the arena sizing no string-buffer request of the per-mutation
row rehydration can fail. -/
theorem import_site_mutations_ok (bs : Nat) (mt : tsk_mutation_table_t)
    (hd : ∀ i, mt.derived_state_offset.getD i 0 ≤ mt.derived_state.length)
    (hm : ∀ i, mt.metadata_offset.getD i 0 ≤ mt.metadata.length)
    (hbs1 : 1 + mt.derived_state.length ≤ bs)
    (hbs2 : 1 + mt.metadata.length ≤ bs) :
    ∀ n start, (import_site_mutations bs mt start n).isSome = true := by
  intro n
  induction n with
  | zero => intro start; rfl
  | succ n ih =>
    intro start
    rw [import_site_mutations]
    have hrow : (import_mutation_row bs mt start).isSome = true := by
      rw [import_mutation_row]
      have h1 : (tsk_blkalloc_ok bs
          (mt.derived_state_offset.getD (start + 1) 0 -
            mt.derived_state_offset.getD start 0) : Bool) = true := by
        simp only [tsk_blkalloc_ok, decide_eq_true_eq]
        have := hd (start + 1)
        omega
      have h2 : (tsk_blkalloc_ok bs
          (mt.metadata_offset.getD (start + 1) 0 -
            mt.metadata_offset.getD start 0) : Bool) = true := by
        simp only [tsk_blkalloc_ok, decide_eq_true_eq]
        have := hm (start + 1)
        omega
      rw [if_neg (not_not_intro h1), if_neg (not_not_intro h2)]
      rfl
    cases hr : import_mutation_row bs mt start with
    | none => rw [hr] at hrow; cases hrow
    | some m0 =>
      have hrest := ih (start + 1)
      cases hrest2 : import_site_mutations bs mt (start + 1) n with
      | none => rw [hrest2] at hrest; cases hrest
      | some ms => simp [hrest2]

theorem takeWhile_length_bound {α : Type} (p : α → Bool) (l : List α) :
    (l.takeWhile p).length ≤ l.length := by
  induction l with
  | nil => simp
  | cons a l ih =>
    rw [List.takeWhile_cons]
    by_cases h : p a
    · simp only [h, if_true]
      simpa using ih
    · simp [h]

/-- The run of matching mutation rows never exceeds the table's row count. -/
theorem run_length_le (siteCol : List Int) (cursor : Nat) (site_id : Int) :
    run_length siteCol cursor site_id ≤ siteCol.length := by
  calc run_length siteCol cursor site_id
      ≤ (siteCol.drop cursor).length := takeWhile_length_bound _ _
    _ ≤ siteCol.length := by simp

/-- Under the arena sizing the import loop can never report `noMemory`. -/
theorem initialise_loop_no_oom (L : layout_t) (bs : Nat)
    (st : tsk_site_table_t) (mt : tsk_mutation_table_t)
    (hsite : L.sizeof_site < bs) (havl : L.sizeof_avl_node < bs)
    (hmut : 0 < L.sizeof_mutation)
    (hrows : (1 + mt.num_rows) * L.sizeof_mutation ≤ bs)
    (hanc : ∀ i, st.ancestral_state_offset.getD i 0 ≤
      st.ancestral_state.length)
    (hmeta : ∀ i, st.metadata_offset.getD i 0 ≤ st.metadata.length)
    (hbs1 : 1 + st.ancestral_state.length ≤ bs)
    (hbs2 : 1 + st.metadata.length ≤ bs)
    (hder : ∀ i, mt.derived_state_offset.getD i 0 ≤
      mt.derived_state.length)
    (hmmeta : ∀ i, mt.metadata_offset.getD i 0 ≤ mt.metadata.length)
    (hbs3 : 1 + mt.derived_state.length ≤ bs)
    (hbs4 : 1 + mt.metadata.length ≤ bs) :
    ∀ todo site_id cursor sites,
      (mutget_initialise_sites_loop L bs st mt todo site_id cursor
        sites).1 ≠ some MspError.noMemory := by
  intro todo
  induction todo with
  | zero => intro site_id cursor sites h; cases h
  | succ todo ih =>
    intro site_id cursor sites
    rw [mutget_initialise_sites_loop]
    have hnum : run_length mt.site cursor (Int.ofNat site_id) *
        L.sizeof_mutation < bs := by
      have h1 := run_length_le mt.site cursor (Int.ofNat site_id)
      have h2 : run_length mt.site cursor (Int.ofNat site_id) *
          L.sizeof_mutation ≤ mt.num_rows * L.sizeof_mutation :=
        Nat.mul_le_mul_right _ h1
      have h3 : mt.num_rows * L.sizeof_mutation <
          (1 + mt.num_rows) * L.sizeof_mutation := by
        rw [Nat.add_mul, Nat.one_mul]
        omega
      omega
    have hm1 : ¬ ¬ (tsk_blkalloc_ok bs L.sizeof_site &&
        tsk_blkalloc_ok bs L.sizeof_avl_node &&
        tsk_blkalloc_ok bs
          (run_length mt.site cursor (Int.ofNat site_id) *
            L.sizeof_mutation) : Bool) = true := by
      simp only [tsk_blkalloc_ok, Bool.and_eq_true, decide_eq_true_eq,
        not_not]
      exact ⟨⟨hsite, havl⟩, hnum⟩
    rw [if_neg hm1]
    have hm2 : ¬ ¬ (tsk_blkalloc_ok bs
        (st.ancestral_state_offset.getD (site_id + 1) 0 -
          st.ancestral_state_offset.getD site_id 0) : Bool) = true := by
      simp only [tsk_blkalloc_ok, decide_eq_true_eq, not_not]
      have := hanc (site_id + 1)
      omega
    rw [if_neg hm2]
    have hm3 : ¬ ¬ (tsk_blkalloc_ok bs
        (st.metadata_offset.getD (site_id + 1) 0 -
          st.metadata_offset.getD site_id 0) : Bool) = true := by
      simp only [tsk_blkalloc_ok, decide_eq_true_eq, not_not]
      have := hmeta (site_id + 1)
      omega
    rw [if_neg hm3]
    have hims := import_site_mutations_ok bs mt hder hmmeta hbs3 hbs4
      (run_length mt.site cursor (Int.ofNat site_id)) cursor
    cases him : import_site_mutations bs mt cursor
        (run_length mt.site cursor (Int.ofNat site_id)) with
    | none => rw [him] at hims; cases hims
    | some muts =>
      simp only [him]
      cases hins : avl_insert_site sites
          ⟨st.position.getD site_id 0,
           column_slice st.ancestral_state
             (st.ancestral_state_offset.getD site_id 0)
             (st.ancestral_state_offset.getD (site_id + 1) 0),
           column_slice st.metadata (st.metadata_offset.getD site_id 0)
             (st.metadata_offset.getD (site_id + 1) 0),
           muts⟩ with
      | none => simp only [hins]; intro hc; cases hc
      | some sites' => simp only [hins]; exact ih (site_id + 1) _ sites'

/-- C8: the block size computed at the start of a generate call (raised to
`1 +` each input string-column byte length and `(1 + mutation rows) *
sizeof(mutation)`, and at least 128) covers every allocation issued while
rehydrating imported sites and mutations, so the `noMemory` branch of
the preload is unreachable whenever the fixed records fit the 128-byte
minimum. -/
theorem C8_import_oom_unreachable (L : layout_t) (self : mutgen_t)
    (tables : tsk_table_collection_t)
    (hint : tsk_table_collection_check_integrity tables = true)
    (hsite : L.sizeof_site < 128) (havl : L.sizeof_avl_node < 128)
    (hmut : 0 < L.sizeof_mutation) :
    (mutget_initialise_sites L (mutgen_setup L self tables) tables).1 ≠
      some MspError.noMemory := by
  have hI := hint
  simp only [tsk_table_collection_check_integrity, Bool.and_eq_true] at hI
  obtain ⟨⟨⟨hI1, hI2⟩, hI3⟩, hI4⟩ := hI
  have hb128 : 128 ≤ (mutgen_setup L self tables).block_size := by
    show 128 ≤
      (mutgen_init_allocator L { self with sites := [] } tables).block_size
    simp only [mutgen_init_allocator]
    omega
  have hbanc : 1 + tables.sites.ancestral_state.length ≤
      (mutgen_setup L self tables).block_size := by
    show _ ≤
      (mutgen_init_allocator L { self with sites := [] } tables).block_size
    simp only [mutgen_init_allocator]
    omega
  have hbmeta : 1 + tables.sites.metadata.length ≤
      (mutgen_setup L self tables).block_size := by
    show _ ≤
      (mutgen_init_allocator L { self with sites := [] } tables).block_size
    simp only [mutgen_init_allocator]
    omega
  have hbder : 1 + tables.mutations.derived_state.length ≤
      (mutgen_setup L self tables).block_size := by
    show _ ≤
      (mutgen_init_allocator L { self with sites := [] } tables).block_size
    simp only [mutgen_init_allocator]
    omega
  have hbmmeta : 1 + tables.mutations.metadata.length ≤
      (mutgen_setup L self tables).block_size := by
    show _ ≤
      (mutgen_init_allocator L { self with sites := [] } tables).block_size
    simp only [mutgen_init_allocator]
    omega
  have hbrows : (1 + tables.mutations.num_rows) * L.sizeof_mutation ≤
      (mutgen_setup L self tables).block_size := by
    show _ ≤
      (mutgen_init_allocator L { self with sites := [] } tables).block_size
    simp only [mutgen_init_allocator]
    exact Nat.le_max_right _ _
  rw [mutget_initialise_sites]
  exact initialise_loop_no_oom L (mutgen_setup L self tables).block_size
    tables.sites tables.mutations
    (lt_of_lt_of_le hsite hb128) (lt_of_lt_of_le havl hb128) hmut hbrows
    (offsets_getD_le _ _ _ hI1) (offsets_getD_le _ _ _ hI2)
    hbanc hbmeta
    (offsets_getD_le _ _ _ hI3) (offsets_getD_le _ _ _ hI4)
    hbder hbmmeta
    tables.sites.num_rows 0 0 (mutgen_setup L self tables).sites

/-! ## Import grouping (C10) -/

/-- The mutation cursor after the first `k` site rows have been processed:
each site row consumes the maximal run of rows matching its id starting
where the previous run ended. -/
def import_cursor (siteCol : List Int) : Nat → Nat
  | 0 => 0
  | k + 1 => import_cursor siteCol k +
      run_length siteCol (import_cursor siteCol k) (Int.ofNat k)

theorem takeWhile_sound {α : Type} (p : α → Bool) (d : α) :
    ∀ (l : List α) (i : Nat), i < (l.takeWhile p).length →
      p (l.getD i d) = true := by
  intro l
  induction l with
  | nil => intro i hi; simp at hi
  | cons a l ih =>
    intro i hi
    rw [List.takeWhile_cons] at hi
    by_cases h : p a
    · rw [if_pos h] at hi
      cases i with
      | zero => simpa using h
      | succ i =>
        simp only [List.length_cons, Nat.succ_lt_succ_iff] at hi
        simpa using ih i hi
    · rw [if_neg h] at hi
      simp at hi

/-- Every row inside a run matches the site id the run was scanned for. -/
theorem run_length_rows (siteCol : List Int) (cursor : Nat) (site_id : Int) :
    ∀ i < run_length siteCol cursor site_id,
      siteCol.getD (cursor + i) 0 = site_id := by
  intro i hi
  have h := takeWhile_sound (fun s => decide (s = site_id)) 0
    (siteCol.drop cursor) i hi
  simp only [decide_eq_true_eq] at h
  have hdg : (siteCol.drop cursor).getD i 0 = siteCol.getD (cursor + i) 0 := by
    simp [List.getD, List.getElem?_drop]
  rw [← hdg]
  exact h

theorem drop_takeWhile_length {α : Type} (p : α → Bool) :
    ∀ l : List α, l.drop (l.takeWhile p).length = l.dropWhile p := by
  intro l
  induction l with
  | nil => rfl
  | cons a l ih =>
    rw [List.takeWhile_cons, List.dropWhile_cons]
    by_cases h : p a
    · rw [if_pos h, if_pos h]
      simpa using ih
    · rw [if_neg h, if_neg h]
      rfl

theorem dropWhile_eq_between {k : Int} :
    ∀ rest : List Int, (∀ x ∈ rest, k ≤ x) →
      rest.dropWhile (fun s => decide (s = k)) =
        rest.dropWhile (fun s => decide (s < k + 1)) := by
  intro rest
  induction rest with
  | nil => intro _; rfl
  | cons a rest ih =>
    intro h
    have hk : k ≤ a := h a (List.mem_cons_self a rest)
    by_cases ha : a = k
    · have h1 : (a :: rest).dropWhile (fun s => decide (s = k)) =
          rest.dropWhile (fun s => decide (s = k)) := by
        rw [List.dropWhile_cons,
          if_pos (by simp only [decide_eq_true_eq]; omega)]
      have h2 : (a :: rest).dropWhile (fun s => decide (s < k + 1)) =
          rest.dropWhile (fun s => decide (s < k + 1)) := by
        rw [List.dropWhile_cons,
          if_pos (by simp only [decide_eq_true_eq]; omega)]
      rw [h1, h2]
      exact ih fun x hx => h x (List.mem_cons_of_mem a hx)
    · have h1 : (a :: rest).dropWhile (fun s => decide (s = k)) =
          a :: rest := by
        rw [List.dropWhile_cons,
          if_neg (by simp only [decide_eq_true_eq]; omega)]
      have h2 : (a :: rest).dropWhile (fun s => decide (s < k + 1)) =
          a :: rest := by
        rw [List.dropWhile_cons,
          if_neg (by simp only [decide_eq_true_eq]; omega)]
      rw [h1, h2]

/-- On a non-decreasing column, dropping the run of `k`s after dropping
everything below `k` is the same as dropping everything below `k + 1`. -/
theorem dropWhile_lt_step {k : Int} :
    ∀ col : List Int, col.Pairwise (· ≤ ·) →
      (col.dropWhile (fun s => decide (s < k))).dropWhile
        (fun s => decide (s = k)) =
        col.dropWhile (fun s => decide (s < k + 1)) := by
  intro col
  induction col with
  | nil => intro _; rfl
  | cons a rest ih =>
    intro hsort
    by_cases ha : a < k
    · have h1 : (a :: rest).dropWhile (fun s => decide (s < k)) =
          rest.dropWhile (fun s => decide (s < k)) := by
        rw [List.dropWhile_cons,
          if_pos (by simp only [decide_eq_true_eq]; omega)]
      have h2 : (a :: rest).dropWhile (fun s => decide (s < k + 1)) =
          rest.dropWhile (fun s => decide (s < k + 1)) := by
        rw [List.dropWhile_cons,
          if_pos (by simp only [decide_eq_true_eq]; omega)]
      rw [h1, h2]
      exact ih hsort.of_cons
    · have h1 : (a :: rest).dropWhile (fun s => decide (s < k)) =
          a :: rest := by
        rw [List.dropWhile_cons,
          if_neg (by simp only [decide_eq_true_eq]; omega)]
      rw [h1]
      by_cases heq : a = k
      · have h2 : (a :: rest).dropWhile (fun s => decide (s = k)) =
            rest.dropWhile (fun s => decide (s = k)) := by
          rw [List.dropWhile_cons,
            if_pos (by simp only [decide_eq_true_eq]; omega)]
        have h3 : (a :: rest).dropWhile (fun s => decide (s < k + 1)) =
            rest.dropWhile (fun s => decide (s < k + 1)) := by
          rw [List.dropWhile_cons,
            if_pos (by simp only [decide_eq_true_eq]; omega)]
        rw [h2, h3]
        subst heq
        exact dropWhile_eq_between rest fun x hx =>
          List.rel_of_pairwise_cons hsort hx
      · have h2 : (a :: rest).dropWhile (fun s => decide (s = k)) =
            a :: rest := by
          rw [List.dropWhile_cons,
            if_neg (by simp only [decide_eq_true_eq]; omega)]
        have h3 : (a :: rest).dropWhile (fun s => decide (s < k + 1)) =
            a :: rest := by
          rw [List.dropWhile_cons,
            if_neg (by simp only [decide_eq_true_eq]; omega)]
        rw [h2, h3]

theorem import_cursor_le (col : List Int) :
    ∀ k, import_cursor col k ≤ col.length := by
  intro k
  induction k with
  | zero => exact Nat.zero_le _
  | succ k ih =>
    rw [import_cursor]
    have hrun : run_length col (import_cursor col k) (Int.ofNat k) ≤
        col.length - import_cursor col k := by
      calc run_length col (import_cursor col k) (Int.ofNat k)
          ≤ (col.drop (import_cursor col k)).length :=
            takeWhile_length_bound _ _
        _ = col.length - import_cursor col k := List.length_drop _ _
    omega

/-- The cursor invariant on a non-decreasing, non-negative site column:
after `k` site rows the cursor sits right past all rows with site id below
`k`. -/
theorem import_cursor_drop (col : List Int)
    (hsort : col.Pairwise (· ≤ ·)) (hpos : ∀ x ∈ col, 0 ≤ x) :
    ∀ k, col.drop (import_cursor col k) =
      col.dropWhile (fun s => decide (s < Int.ofNat k)) := by
  intro k
  induction k with
  | zero =>
    rw [import_cursor, List.drop_zero]
    cases col with
    | nil => rfl
    | cons a rest =>
      have ha := hpos a (List.mem_cons_self a rest)
      rw [List.dropWhile_cons,
        if_neg (by simp only [decide_eq_true_eq, Int.ofNat_eq_natCast,
          Nat.cast_zero]; omega)]
  | succ k ih =>
    rw [import_cursor, ← List.drop_drop, ih]
    show (col.dropWhile (fun s => decide (s < Int.ofNat k))).drop
        (run_length col (import_cursor col k) (Int.ofNat k)) = _
    have hrl : run_length col (import_cursor col k) (Int.ofNat k) =
        ((col.dropWhile (fun s => decide (s < Int.ofNat k))).takeWhile
          (fun s => decide (s = Int.ofNat k))).length := by
      rw [run_length, ih]
    rw [hrl, drop_takeWhile_length, dropWhile_lt_step col hsort]
    rfl

/-- On a site column sorted in non-decreasing order with every value a
valid site id (grouped input), the import consumes every mutation row. -/
theorem import_cursor_complete (col : List Int) (S : Nat)
    (hsort : col.Pairwise (· ≤ ·))
    (hrange : ∀ x ∈ col, 0 ≤ x ∧ x < Int.ofNat S) :
    import_cursor col S = col.length := by
  have hdrop := import_cursor_drop col hsort (fun x hx => (hrange x hx).1) S
  have hnil : col.dropWhile (fun s => decide (s < Int.ofNat S)) = [] :=
    List.dropWhile_eq_nil_iff.mpr fun x hx => by
      simp only [decide_eq_true_eq]
      exact (hrange x hx).2
  rw [hnil] at hdrop
  have h1 := List.drop_eq_nil_iff.mp hdrop
  have h2 := import_cursor_le col S
  omega

/-- The cursor sequence of the import loop when it starts at an arbitrary
site id and cursor. -/
def loop_cursor (siteCol : List Int) (site_id cursor : Nat) : Nat → Nat
  | 0 => cursor
  | j + 1 => loop_cursor siteCol site_id cursor j +
      run_length siteCol (loop_cursor siteCol site_id cursor j)
        (Int.ofNat (site_id + j))

theorem import_cursor_eq_loop_cursor (col : List Int) :
    ∀ k, import_cursor col k = loop_cursor col 0 0 k := by
  intro k
  induction k with
  | zero => rfl
  | succ k ih =>
    rw [import_cursor, loop_cursor, ih]
    have h : 0 + k = k := Nat.zero_add k
    rw [h]

theorem loop_cursor_shift (col : List Int) (site_id cursor : Nat) :
    ∀ j, loop_cursor col (site_id + 1)
        (cursor + run_length col cursor (Int.ofNat site_id)) j =
      loop_cursor col site_id cursor (j + 1) := by
  intro j
  induction j with
  | zero => rfl
  | succ j ih =>
    rw [loop_cursor, ih]
    show _ = loop_cursor col site_id cursor (j + 1) +
      run_length col (loop_cursor col site_id cursor (j + 1))
        (Int.ofNat (site_id + (j + 1)))
    have h : site_id + 1 + j = site_id + (j + 1) := by omega
    rw [h]

/-- Sites present before the import loop runs are still present after it. -/
theorem initialise_loop_mono (L : layout_t) (bs : Nat)
    (st : tsk_site_table_t) (mt : tsk_mutation_table_t) :
    ∀ todo site_id cursor sites x, x ∈ sites →
      x ∈ (mutget_initialise_sites_loop L bs st mt todo site_id cursor
        sites).2 := by
  intro todo
  induction todo with
  | zero => intro site_id cursor sites x hx; exact hx
  | succ todo ih =>
    intro site_id cursor sites x hx
    rw [mutget_initialise_sites_loop]
    by_cases hm1 : ¬ (tsk_blkalloc_ok bs L.sizeof_site &&
        tsk_blkalloc_ok bs L.sizeof_avl_node &&
        tsk_blkalloc_ok bs
          (run_length mt.site cursor (Int.ofNat site_id) *
            L.sizeof_mutation) : Bool)
    · rw [if_pos hm1]; exact hx
    · rw [if_neg hm1]
      by_cases hm2 : ¬ (tsk_blkalloc_ok bs
          (st.ancestral_state_offset.getD (site_id + 1) 0 -
            st.ancestral_state_offset.getD site_id 0) : Bool)
      · rw [if_pos hm2]; exact hx
      · rw [if_neg hm2]
        by_cases hm3 : ¬ (tsk_blkalloc_ok bs
            (st.metadata_offset.getD (site_id + 1) 0 -
              st.metadata_offset.getD site_id 0) : Bool)
        · rw [if_pos hm3]; exact hx
        · rw [if_neg hm3]
          cases hims : import_site_mutations bs mt cursor
              (run_length mt.site cursor (Int.ofNat site_id)) with
          | none => simp only [hims]; exact hx
          | some muts =>
            simp only [hims]
            cases hins : avl_insert_site sites
                ⟨st.position.getD site_id 0,
                 column_slice st.ancestral_state
                   (st.ancestral_state_offset.getD site_id 0)
                   (st.ancestral_state_offset.getD (site_id + 1) 0),
                 column_slice st.metadata (st.metadata_offset.getD site_id 0)
                   (st.metadata_offset.getD (site_id + 1) 0),
                 muts⟩ with
            | none => simp only [hins]; exact hx
            | some sites' =>
              simp only [hins]
              exact ih (site_id + 1) _ sites' x
                ((avl_insert_site_perm _ _ _ hins).mem_iff.mpr
                  (List.mem_cons_of_mem _ hx))

/-- A successful import loop rehydrates, for each processed site row, the
contiguous run of mutation rows starting where the previous run ended, and
the rehydrated site record is present in the final registry. -/
theorem initialise_loop_runs (L : layout_t) (bs : Nat)
    (st : tsk_site_table_t) (mt : tsk_mutation_table_t) :
    ∀ todo site_id cursor sites,
      (mutget_initialise_sites_loop L bs st mt todo site_id cursor
        sites).1 = none →
      ∀ j < todo,
        ∃ muts,
          import_site_mutations bs mt (loop_cursor mt.site site_id cursor j)
            (run_length mt.site (loop_cursor mt.site site_id cursor j)
              (Int.ofNat (site_id + j))) = some muts ∧
          (⟨st.position.getD (site_id + j) 0,
            column_slice st.ancestral_state
              (st.ancestral_state_offset.getD (site_id + j) 0)
              (st.ancestral_state_offset.getD (site_id + j + 1) 0),
            column_slice st.metadata
              (st.metadata_offset.getD (site_id + j) 0)
              (st.metadata_offset.getD (site_id + j + 1) 0),
            muts⟩ : tsk_site_t) ∈
            (mutget_initialise_sites_loop L bs st mt todo site_id cursor
              sites).2 := by
  intro todo
  induction todo with
  | zero => intro site_id cursor sites _ j hj; omega
  | succ todo ih =>
    intro site_id cursor sites hok j hj
    rw [mutget_initialise_sites_loop] at hok ⊢
    by_cases hm1 : ¬ (tsk_blkalloc_ok bs L.sizeof_site &&
        tsk_blkalloc_ok bs L.sizeof_avl_node &&
        tsk_blkalloc_ok bs
          (run_length mt.site cursor (Int.ofNat site_id) *
            L.sizeof_mutation) : Bool)
    · rw [if_pos hm1] at hok; cases hok
    · rw [if_neg hm1] at hok ⊢
      by_cases hm2 : ¬ (tsk_blkalloc_ok bs
          (st.ancestral_state_offset.getD (site_id + 1) 0 -
            st.ancestral_state_offset.getD site_id 0) : Bool)
      · rw [if_pos hm2] at hok; cases hok
      · rw [if_neg hm2] at hok ⊢
        by_cases hm3 : ¬ (tsk_blkalloc_ok bs
            (st.metadata_offset.getD (site_id + 1) 0 -
              st.metadata_offset.getD site_id 0) : Bool)
        · rw [if_pos hm3] at hok; cases hok
        · rw [if_neg hm3] at hok ⊢
          cases hims : import_site_mutations bs mt cursor
              (run_length mt.site cursor (Int.ofNat site_id)) with
          | none => rw [hims] at hok; cases hok
          | some muts =>
            simp only [hims] at hok ⊢
            cases hins : avl_insert_site sites
                ⟨st.position.getD site_id 0,
                 column_slice st.ancestral_state
                   (st.ancestral_state_offset.getD site_id 0)
                   (st.ancestral_state_offset.getD (site_id + 1) 0),
                 column_slice st.metadata (st.metadata_offset.getD site_id 0)
                   (st.metadata_offset.getD (site_id + 1) 0),
                 muts⟩ with
            | none => rw [hins] at hok; cases hok
            | some sites' =>
              simp only [hins] at hok ⊢
              cases j with
              | zero =>
                refine ⟨muts, ?_, ?_⟩
                · show import_site_mutations bs mt cursor
                    (run_length mt.site cursor (Int.ofNat (site_id + 0))) =
                      some muts
                  rw [Nat.add_zero]
                  exact hims
                · have hmem : (⟨st.position.getD site_id 0,
                      column_slice st.ancestral_state
                        (st.ancestral_state_offset.getD site_id 0)
                        (st.ancestral_state_offset.getD (site_id + 1) 0),
                      column_slice st.metadata
                        (st.metadata_offset.getD site_id 0)
                        (st.metadata_offset.getD (site_id + 1) 0),
                      muts⟩ : tsk_site_t) ∈ sites' :=
                    (avl_insert_site_perm _ _ _ hins).mem_iff.mpr
                      (List.mem_cons_self _ _)
                  have := initialise_loop_mono L bs st mt todo (site_id + 1)
                    (cursor + run_length mt.site cursor (Int.ofNat site_id))
                    sites' _ hmem
                  simpa [Nat.add_zero] using this
              | succ j' =>
                have hrec := ih (site_id + 1)
                  (cursor + run_length mt.site cursor (Int.ofNat site_id))
                  sites' hok j' (by omega)
                obtain ⟨muts', h1, h2⟩ := hrec
                refine ⟨muts', ?_, ?_⟩
                · rw [← loop_cursor_shift mt.site site_id cursor j'] at *
                  have hid : site_id + 1 + j' = site_id + (j' + 1) := by omega
                  rw [hid] at h1
                  exact h1
                · have hid : site_id + 1 + j' = site_id + (j' + 1) := by omega
                  rw [hid] at h2
                  exact h2

/-! ## Determinism of consecutive runs (C7) -/

/-- Two generator states share their configuration: everything except the
site registry. -/
def same_config (a b : mutgen_t) : Prop :=
  a.alphabet = b.alphabet ∧ a.start_time = b.start_time ∧
  a.end_time = b.end_time ∧ a.block_size = b.block_size ∧ a.map = b.map

theorem same_config_refl (a : mutgen_t) : same_config a a :=
  ⟨rfl, rfl, rfl, rfl, rfl⟩

theorem same_config_trans {a b c : mutgen_t} (h1 : same_config a b)
    (h2 : same_config b c) : same_config a c :=
  ⟨h1.1.trans h2.1, h1.2.1.trans h2.2.1, h1.2.2.1.trans h2.2.2.1,
   h1.2.2.2.1.trans h2.2.2.2.1, h1.2.2.2.2.trans h2.2.2.2.2⟩

theorem mutgen_add_mutation_config (L : layout_t) (self : mutgen_t)
    (node : Int) (position : ℚ) (a d : Char) :
    same_config (mutgen_add_mutation L self node position a d).2 self := by
  rw [mutgen_add_mutation]
  by_cases hm : ¬ (tsk_blkalloc_ok self.block_size L.sizeof_site &&
      tsk_blkalloc_ok self.block_size L.sizeof_mutation &&
      tsk_blkalloc_ok self.block_size L.sizeof_avl_node : Bool)
  · rw [if_pos hm]; exact same_config_refl self
  · rw [if_neg hm]
    cases hins : avl_insert_site self.sites
        ⟨position, [a], [], [⟨0, node, TSK_NULL, [d], []⟩]⟩ with
    | none => simp only [hins]; exact same_config_refl self
    | some sites' => simp only [hins]; exact ⟨rfl, rfl, rfl, rfl, rfl⟩

theorem branch_mut_loop_config (L : layout_t) (rej_fuel : Nat) (child : Int)
    (a b : ℚ) (types : List (Char × Char)) :
    ∀ n self rng,
      same_config (branch_mut_loop L rej_fuel child a b types n self
        rng).2.1 self := by
  intro n
  induction n with
  | zero => intro self rng; exact same_config_refl self
  | succ n ih =>
    intro self rng
    rw [branch_mut_loop]
    cases hrl : rejection_loop self.sites a b rng rej_fuel with
    | none => exact same_config_refl self
    | some v =>
      obtain ⟨position, rng1⟩ := v
      have hadd := mutgen_add_mutation_config L self child position
        (types.getD (gsl_rng_uniform_int rng1 types.length).1 ('0', '1')).1
        (types.getD (gsl_rng_uniform_int rng1 types.length).1 ('0', '1')).2
      cases hA : mutgen_add_mutation L self child position
          (types.getD (gsl_rng_uniform_int rng1 types.length).1 ('0', '1')).1
          (types.getD (gsl_rng_uniform_int rng1 types.length).1
            ('0', '1')).2 with
      | mk ret self' =>
        rw [hA] at hadd
        cases ret with
        | none =>
          simp only [hA]
          exact same_config_trans (ih self' _) hadd
        | some e => simp only [hA]; exact hadd

theorem interval_loop_config (L : layout_t) (rej_fuel : Nat)
    (types : List (Char × Char)) (child : Int)
    (branch_length left edge_right : ℚ) :
    ∀ fuel map_index right0 self rng,
      same_config (interval_loop L rej_fuel types child branch_length left
        edge_right fuel map_index right0 self rng).2.1 self := by
  intro fuel
  induction fuel with
  | zero =>
    intro map_index right0 self rng
    rw [interval_loop]
    by_cases he : right0 = edge_right
    · rw [if_pos he]; exact same_config_refl self
    · rw [if_neg he]; exact same_config_refl self
  | succ fuel ih =>
    intro map_index right0 self rng
    rw [interval_loop]
    by_cases he : right0 = edge_right
    · rw [if_pos he]; exact same_config_refl self
    · rw [if_neg he]
      have hbm := branch_mut_loop_config L rej_fuel child left
        (min edge_right (self.map.position.getD (map_index + 1) 0)) types
        (gsl_ran_poisson rng (branch_length *
          (min edge_right (self.map.position.getD (map_index + 1) 0) - left) *
          self.map.rate.getD map_index 0)).1 self
        (gsl_ran_poisson rng (branch_length *
          (min edge_right (self.map.position.getD (map_index + 1) 0) - left) *
          self.map.rate.getD map_index 0)).2
      cases hB : branch_mut_loop L rej_fuel child left
          (min edge_right (self.map.position.getD (map_index + 1) 0)) types
          (gsl_ran_poisson rng (branch_length *
            (min edge_right (self.map.position.getD (map_index + 1) 0) -
              left) * self.map.rate.getD map_index 0)).1 self
          (gsl_ran_poisson rng (branch_length *
            (min edge_right (self.map.position.getD (map_index + 1) 0) -
              left) * self.map.rate.getD map_index 0)).2 with
      | mk ret rest =>
        obtain ⟨self', rng'⟩ := rest
        rw [hB] at hbm
        cases ret with
        | none =>
          simp only [hB]
          exact same_config_trans (ih (map_index + 1) _ self' rng') hbm
        | some e => simp only [hB]; exact hbm

theorem edge_loop_config (L : layout_t) (fuel rej_fuel : Nat)
    (types : List (Char × Char)) (nodes : tsk_node_table_t)
    (edges : tsk_edge_table_t) (start_time end_time : ℚ) :
    ∀ todo j self rng,
      same_config (edge_loop L fuel rej_fuel types nodes edges start_time
        end_time j todo self rng).2.1 self := by
  intro todo
  induction todo with
  | zero => intro j self rng; exact same_config_refl self
  | succ todo ih =>
    intro j self rng
    rw [edge_loop]
    have hil := interval_loop_config L rej_fuel types (edges.child.getD j 0)
      (min end_time (nodes.time.getD (edges.parent.getD j 0).toNat 0) -
        max start_time (nodes.time.getD (edges.child.getD j 0).toNat 0))
      (edges.left.getD j 0) (edges.right.getD j 0) fuel
      (if self.map.position.getD (tsk_search_sorted self.map.position
          self.map.size (edges.left.getD j 0)) 0 > edges.left.getD j 0 then
        tsk_search_sorted self.map.position self.map.size
          (edges.left.getD j 0) - 1
      else tsk_search_sorted self.map.position self.map.size
        (edges.left.getD j 0)) 0 self rng
    cases hI : interval_loop L rej_fuel types (edges.child.getD j 0)
        (min end_time (nodes.time.getD (edges.parent.getD j 0).toNat 0) -
          max start_time (nodes.time.getD (edges.child.getD j 0).toNat 0))
        (edges.left.getD j 0) (edges.right.getD j 0) fuel
        (if self.map.position.getD (tsk_search_sorted self.map.position
            self.map.size (edges.left.getD j 0)) 0 > edges.left.getD j 0 then
          tsk_search_sorted self.map.position self.map.size
            (edges.left.getD j 0) - 1
        else tsk_search_sorted self.map.position self.map.size
          (edges.left.getD j 0)) 0 self rng with
    | mk ret rest =>
      obtain ⟨self', rng'⟩ := rest
      rw [hI] at hil
      cases ret with
      | none =>
        simp only [hI]
        exact same_config_trans (ih (j + 1) self' rng') hil
      | some e => simp only [hI]; exact hil

theorem mutgen_t_ext (a b : mutgen_t) (h1 : a.alphabet = b.alphabet)
    (h2 : a.start_time = b.start_time) (h3 : a.end_time = b.end_time)
    (h4 : a.block_size = b.block_size) (h5 : a.map = b.map)
    (h6 : a.sites = b.sites) : a = b := by
  cases a
  cases b
  simp_all

theorem rate_map_t_ext (a b : rate_map_t) (h1 : a.size = b.size)
    (h2 : a.position = b.position) (h3 : a.rate = b.rate) : a = b := by
  cases a
  cases b
  simp_all

theorem init_allocator_ge_128 (L : layout_t) (s : mutgen_t)
    (tables : tsk_table_collection_t) :
    128 ≤ (mutgen_init_allocator L s tables).block_size := by
  simp only [mutgen_init_allocator]
  omega

theorem init_allocator_ge_mut_rows (L : layout_t) (s : mutgen_t)
    (tables : tsk_table_collection_t) :
    (1 + tables.mutations.num_rows) * L.sizeof_mutation ≤
      (mutgen_init_allocator L s tables).block_size := by
  simp only [mutgen_init_allocator]
  exact Nat.le_max_right _ _

/-- Re-initialising the arena from an already re-initialised state computes
the same block size. -/
theorem init_allocator_block_idem (L : layout_t) (s s' : mutgen_t)
    (tables : tsk_table_collection_t)
    (h : s'.block_size = (mutgen_init_allocator L s tables).block_size) :
    (mutgen_init_allocator L s' tables).block_size =
      (mutgen_init_allocator L s tables).block_size := by
  have h128 := init_allocator_ge_128 L s tables
  have hrows := init_allocator_ge_mut_rows L s tables
  have h1 : 1 + tables.sites.ancestral_state.length ≤
      (mutgen_init_allocator L s tables).block_size := by
    simp only [mutgen_init_allocator]; omega
  have h2 : 1 + tables.sites.metadata.length ≤
      (mutgen_init_allocator L s tables).block_size := by
    simp only [mutgen_init_allocator]; omega
  have h3 : 1 + tables.mutations.derived_state.length ≤
      (mutgen_init_allocator L s tables).block_size := by
    simp only [mutgen_init_allocator]; omega
  have h4 : 1 + tables.mutations.metadata.length ≤
      (mutgen_init_allocator L s tables).block_size := by
    simp only [mutgen_init_allocator]; omega
  revert h h128 hrows h1 h2 h3 h4
  generalize (mutgen_init_allocator L s tables).block_size = X
  intro h h128 hrows h1 h2 h3 h4
  have hne : ¬ s'.block_size = 0 := by omega
  simp only [mutgen_init_allocator]
  rw [if_neg hne, h]
  omega

/-- The relation between the generator state passed into `mutgen_generate`
and the one it returns: the configuration (alphabet, time window, map size
and rates) is preserved, the position array agrees with the input's once
both carry the sentinel write, and the block size is the one the arena
initialisation computes. -/
def same_setup (L : layout_t) (tables : tsk_table_collection_t)
    (self s' : mutgen_t) : Prop :=
  s'.alphabet = self.alphabet ∧
  s'.start_time = self.start_time ∧
  s'.end_time = self.end_time ∧
  s'.map.size = self.map.size ∧
  s'.map.rate = self.map.rate ∧
  s'.map.position.set s'.map.size tables.sequence_length =
    self.map.position.set self.map.size tables.sequence_length ∧
  s'.block_size =
    (mutgen_init_allocator L { self with sites := [] } tables).block_size

set_option maxHeartbeats 1600000 in
/-- The generator state returned by `mutgen_generate` keeps the caller's
configuration; only the registry and the arena differ from the input. -/
theorem mutgen_generate_state (L : layout_t) (fuel rej_fuel : Nat)
    (self : mutgen_t) (rng : gsl_rng) (tables : tsk_table_collection_t)
    (keep_sites : Bool) :
    same_setup L tables self
      (mutgen_generate L fuel rej_fuel self rng tables keep_sites).2.1 := by
  rw [mutgen_generate]
  by_cases hI : ¬ tsk_table_collection_check_integrity tables
  · rw [if_pos hI]
    exact ⟨rfl, rfl, rfl, rfl, rfl, rfl, rfl⟩
  · rw [if_neg hI]
    have hsetup : (mutgen_setup L self tables).map.position.set
        (mutgen_setup L self tables).map.size tables.sequence_length =
        self.map.position.set self.map.size tables.sequence_length := by
      show (self.map.position.set self.map.size
        tables.sequence_length).set self.map.size tables.sequence_length = _
      rw [List.set_set]
    by_cases hC : (mutgen_setup L self tables).map.position.getD
        ((mutgen_setup L self tables).map.size - 1) 0 ≥
        tables.sequence_length
    · rw [if_pos hC]
      exact ⟨rfl, rfl, rfl, rfl, rfl, hsetup, rfl⟩
    · rw [if_neg hC]
      cases hK : mutgen_generate_keep L (mutgen_setup L self tables) tables
          keep_sites with
      | mk ret3 s3 =>
        have hs3 : s3 = { mutgen_setup L self tables with
            sites := s3.sites } := by
          rw [mutgen_generate_keep] at hK
          cases keep_sites with
          | false =>
            simp only [Bool.false_eq_true, if_false] at hK
            cases hK
            rfl
          | true =>
            rw [if_pos rfl, mutget_initialise_sites] at hK
            cases hK
            rfl
        cases ret3 with
        | some e =>
          refine ⟨?_, ?_, ?_, ?_, ?_, ?_, ?_⟩ <;> rw [hs3] <;>
            first
            | rfl
            | exact hsetup
        | none =>
          have hcfg := edge_loop_config L fuel rej_fuel
            (if s3.alphabet = 0 then binary_mutation_types
             else acgt_mutation_types)
            tables.nodes tables.edges s3.start_time s3.end_time
            tables.edges.num_rows 0 s3 rng
          show same_setup L tables self
            (mutgen_generate_phase2 L fuel rej_fuel s3 rng tables).2.1
          rw [mutgen_generate_phase2]
          cases hE : edge_loop L fuel rej_fuel
              (if s3.alphabet = 0 then binary_mutation_types
               else acgt_mutation_types)
              ({ tables with
                sites := empty_site_table,
                mutations := empty_mutation_table } :
                  tsk_table_collection_t).nodes
              ({ tables with
                sites := empty_site_table,
                mutations := empty_mutation_table } :
                  tsk_table_collection_t).edges
              s3.start_time s3.end_time 0
              ({ tables with
                sites := empty_site_table,
                mutations := empty_mutation_table } :
                  tsk_table_collection_t).edges.num_rows s3 rng with
          | mk ret rest =>
            obtain ⟨s4, rng4⟩ := rest
            rw [hE] at hcfg
            obtain ⟨hc1, hc2, hc3, hc4, hc5⟩ := hcfg
            have hmap3 : s3.map = (mutgen_setup L self tables).map := by
              rw [hs3]
            have hsz : s4.map.size = self.map.size := by
              rw [hc5, hmap3]; rfl
            have hrt : s4.map.rate = self.map.rate := by
              rw [hc5, hmap3]; rfl
            have hps : s4.map.position.set s4.map.size
                tables.sequence_length =
                self.map.position.set self.map.size
                  tables.sequence_length := by
              rw [hc5, hmap3]
              exact hsetup
            have hbk : s4.block_size =
                (mutgen_init_allocator L { self with sites := [] }
                  tables).block_size := by
              rw [hc4, hs3]; rfl
            have ha : s4.alphabet = self.alphabet := by
              rw [hc1, hs3]; rfl
            have hst : s4.start_time = self.start_time := by
              rw [hc2, hs3]; rfl
            have hen : s4.end_time = self.end_time := by
              rw [hc3, hs3]; rfl
            cases ret with
            | some e => exact ⟨ha, hst, hen, hsz, hrt, hps, hbk⟩
            | none => exact ⟨ha, hst, hen, hsz, hrt, hps, hbk⟩

set_option maxHeartbeats 1600000 in
/-- Two generator states related by `same_setup` reach the same state after
the start-of-call reset (registry clear, arena re-initialisation, sentinel
write). -/
theorem mutgen_setup_ext (L : layout_t) (a b : mutgen_t)
    (tables : tsk_table_collection_t) (h : same_setup L tables a b) :
    mutgen_setup L b tables = mutgen_setup L a tables := by
  obtain ⟨h1, h2, h3, h4, h5, h6, h7⟩ := h
  have hb : (mutgen_init_allocator L { b with sites := [] }
        tables).block_size =
      (mutgen_init_allocator L { a with sites := [] }
        tables).block_size := by
    exact init_allocator_block_idem L { a with sites := [] }
      { b with sites := [] } tables h7
  apply mutgen_t_ext
  · exact h1
  · exact h2
  · exact h3
  · exact hb
  · exact rate_map_t_ext _ _ h4 h6 h5
  · rfl

/-- `mutgen_generate` returns the same error code, final draw stream and
output tables for any two input states whose start-of-call reset coincides:
the sampling and export phases are a function of the post-reset state. -/
theorem mutgen_generate_ext (L : layout_t) (fuel rej_fuel : Nat)
    (a b : mutgen_t) (rng : gsl_rng) (tables : tsk_table_collection_t)
    (keep_sites : Bool)
    (hsetup : mutgen_setup L b tables = mutgen_setup L a tables) :
    (mutgen_generate L fuel rej_fuel b rng tables keep_sites).1 =
      (mutgen_generate L fuel rej_fuel a rng tables keep_sites).1 ∧
    (mutgen_generate L fuel rej_fuel b rng tables keep_sites).2.2.1 =
      (mutgen_generate L fuel rej_fuel a rng tables keep_sites).2.2.1 ∧
    (mutgen_generate L fuel rej_fuel b rng tables keep_sites).2.2.2 =
      (mutgen_generate L fuel rej_fuel a rng tables keep_sites).2.2.2 := by
  rw [mutgen_generate, mutgen_generate]
  by_cases hI : ¬ tsk_table_collection_check_integrity tables
  · rw [if_pos hI, if_pos hI]
    exact ⟨rfl, rfl, rfl⟩
  · rw [if_neg hI, if_neg hI, hsetup]
    exact ⟨rfl, rfl, rfl⟩

/-- C7: for a fixed draw stream (seed), a fixed genealogy table collection
and a fixed rate map, two consecutive `mutgen_generate` calls — the second
starting from the generator state the first one returns — give the same
error code, the same final draw stream, and byte-identical output site and
mutation tables (the whole output collection is equal).  The prescribed
draw order (edges in table order, then rate-map sub-intervals left to
right, then the k mutations of a sub-interval) is the sequential threading
of the draw counter through `edge_loop`, `interval_loop` and
`branch_mut_loop` in the definition of `mutgen_generate`. -/
theorem C7_consecutive_generate_deterministic (L : layout_t)
    (fuel rej_fuel : Nat) (self : mutgen_t) (rng : gsl_rng)
    (tables : tsk_table_collection_t) (keep_sites : Bool) :
    (mutgen_generate L fuel rej_fuel
        (mutgen_generate L fuel rej_fuel self rng tables keep_sites).2.1
        rng tables keep_sites).1 =
      (mutgen_generate L fuel rej_fuel self rng tables keep_sites).1 ∧
    (mutgen_generate L fuel rej_fuel
        (mutgen_generate L fuel rej_fuel self rng tables keep_sites).2.1
        rng tables keep_sites).2.2.1 =
      (mutgen_generate L fuel rej_fuel self rng tables keep_sites).2.2.1 ∧
    (mutgen_generate L fuel rej_fuel
        (mutgen_generate L fuel rej_fuel self rng tables keep_sites).2.1
        rng tables keep_sites).2.2.2 =
      (mutgen_generate L fuel rej_fuel self rng tables keep_sites).2.2.2 :=
  mutgen_generate_ext L fuel rej_fuel self
    (mutgen_generate L fuel rej_fuel self rng tables keep_sites).2.1
    rng tables keep_sites
    (mutgen_setup_ext L self
      (mutgen_generate L fuel rej_fuel self rng tables keep_sites).2.1
      tables
      (mutgen_generate_state L fuel rej_fuel self rng tables keep_sites))

/-! ## Concrete fixtures used by the witnesses -/

/-- A concrete record layout (plausible 64-bit sizes). -/
def demo_layout : layout_t := ⟨64, 40, 56⟩

/-- A deterministic draw stream: every Poisson count is 1, the first flat
draws give position 5 and later ones position 2, type indices are 0. -/
def demo_rng : gsl_rng :=
  ⟨fun _ _ => 1, fun c _ _ => if c ≤ 2 then (5 : ℚ) else (2 : ℚ),
   fun _ _ => 0, 0⟩

/-- A table collection with one edge over `[0, 10)` between nodes at times 0
and 3, and one pre-existing site at position 5 carrying one mutation. -/
def demo_tables : tsk_table_collection_t :=
  { sequence_length := 10, nodes := ⟨[0, 3]⟩, edges := ⟨[0], [10], [1], [0]⟩,
    sites := { position := [5], ancestral_state := ['0'],
               ancestral_state_offset := [0, 1], metadata := [],
               metadata_offset := [0, 0] },
    mutations := { site := [0, 0], node := [0, 1], parent := [-1, 0],
                   derived_state := ['1', '0'],
                   derived_state_offset := [0, 1, 2],
                   metadata := [], metadata_offset := [0, 0, 0] } }

/-- A generator state with the binary alphabet, an unrestricted time window
and a uniform unit rate map. -/
def demo_mutgen : mutgen_t :=
  { alphabet := 0, start_time := -(1000000 : ℚ), end_time := (1000000 : ℚ),
    block_size := 0, map := ⟨1, [0, 0], [1]⟩, sites := [] }

/-- C1 witness: in the demo run (one generated mutation emitted first, then
two imported ones), the imported mutation stored with parent index 0 is
emitted with parent 0 + 1 — the count of generated mutations emitted before
it. -/
theorem C1_export_parent_shift_witness :
    (mutgen_generate demo_layout 10 10 demo_mutgen demo_rng demo_tables
      true).2.2.2.mutations.parent.getD 2 0 =
      (((mutgen_generate demo_layout 10 10 demo_mutgen demo_rng demo_tables
        true).2.1.sites.flatMap fun s => s.mutations).getD 2
          ⟨0, 0, 0, [], []⟩).parent +
        ((((mutgen_generate demo_layout 10 10 demo_mutgen demo_rng
          demo_tables true).2.1.sites.flatMap fun s => s.mutations).take
            2).countP fun m => m.id == 0) ∧
    (mutgen_generate demo_layout 10 10 demo_mutgen demo_rng demo_tables
      true).2.2.2.mutations.parent.getD 2 0 = 1 :=
  ⟨((C1_export_parent_shift demo_layout 10 10 demo_mutgen demo_rng
      demo_tables true ⟨0, 0, 0, [], []⟩ (by decide)).2.2 2 (by decide)).2
    (by decide) (by decide),
   by decide⟩

/-- C8 witness: on the demo tables (one site row, two mutation rows) the
preload cannot report `noMemory` under the computed block size. -/
theorem C8_import_oom_unreachable_witness :
    (mutget_initialise_sites demo_layout
      (mutgen_setup demo_layout demo_mutgen demo_tables) demo_tables).1 ≠
      some MspError.noMemory :=
  C8_import_oom_unreachable demo_layout demo_mutgen demo_tables
    (by decide) (by decide) (by decide) (by decide)

/-- C9 witness: with rejection fuel 1 the demo run fails during sampling
(the C rejection loop would spin), and the returned tables are empty even
though the input tables held one site row and two mutation rows. -/
theorem C9_tables_cleared_before_sampling_witness :
    (mutgen_generate demo_layout 10 1 demo_mutgen demo_rng demo_tables
      true).2.2.2.sites = empty_site_table ∧
    (mutgen_generate demo_layout 10 1 demo_mutgen demo_rng demo_tables
      true).2.2.2.mutations = empty_mutation_table :=
  (C9_tables_cleared_before_sampling demo_layout 10 1 demo_mutgen demo_rng
    demo_tables true).2.1 (by decide)

/-- C2 witness: a successful import-and-generate run (one imported site at
position 5, one sampled site at position 2) has pairwise distinct output
positions. -/
theorem C2_unique_site_positions_witness :
    (mutgen_generate demo_layout 10 10 demo_mutgen demo_rng demo_tables
      true).1 = none ∧
    (mutgen_generate demo_layout 10 10 demo_mutgen demo_rng demo_tables
      true).2.2.2.sites.position.Pairwise (· ≠ ·) :=
  ⟨by decide,
   C2_unique_site_positions demo_layout 10 10 demo_mutgen demo_rng
     demo_tables true (by decide)⟩

/-- C3 amended witness: the counterexample input instantiates the amended
statement. -/
theorem C3_set_map_not_atomic_witness :
    (mutgen_set_map 0 ⟨2, [0, 1, 0], [5, 7]⟩ 3 [0, 1, 1]
      [1, 1, 1]).2.position.length = 4 ∧
    (mutgen_set_map 0 ⟨2, [0, 1, 0], [5, 7]⟩ 3 [0, 1, 1]
      [1, 1, 1]).2.size = 3 :=
  ⟨(C3_set_map_not_atomic 0 ⟨2, [0, 1, 0], [5, 7]⟩ 3 [0, 1, 1] [1, 1, 1]).1,
   (C3_set_map_not_atomic 0 ⟨2, [0, 1, 0], [5, 7]⟩ 3 [0, 1, 1] [1, 1, 1]).2.2
     (by decide) (by decide)⟩

/-- A table collection whose mutation table is NOT grouped by site id: the
site column is `[1, 0]`, so the row with site id 0 sits after the rows the
cursor scans for site 0. -/
def demo_ungrouped_tables : tsk_table_collection_t :=
  { sequence_length := 10, nodes := ⟨[]⟩, edges := ⟨[], [], [], []⟩,
    sites := { position := [3, 6], ancestral_state := ['0', '0'],
               ancestral_state_offset := [0, 1, 2], metadata := [],
               metadata_offset := [0, 0, 0] },
    mutations := { site := [1, 0], node := [0, 0], parent := [-1, -1],
                   derived_state := ['1', '1'],
                   derived_state_offset := [0, 1, 2], metadata := [],
                   metadata_offset := [0, 0, 0] } }

/-- C10: during import preload the mutations attached to each rehydrated
site are exactly the contiguous run of input mutation rows starting where
the previous site's run ended, every row in a run carrying that site's id;
on a site column grouped in non-decreasing order with valid ids the runs
consume every row, whereas an out-of-place row (site column `[1, 0]`) is
silently never imported: the import still succeeds but only one of the two
rows reaches the registry. -/
theorem C10_import_contiguous_runs (L : layout_t) (self : mutgen_t)
    (tables : tsk_table_collection_t) :
    ((mutget_initialise_sites L self tables).1 = none →
      ∀ k, k < tables.sites.num_rows →
        ∃ muts,
          import_site_mutations self.block_size tables.mutations
            (import_cursor tables.mutations.site k)
            (run_length tables.mutations.site
              (import_cursor tables.mutations.site k) (Int.ofNat k)) =
            some muts ∧
          (⟨tables.sites.position.getD k 0,
            column_slice tables.sites.ancestral_state
              (tables.sites.ancestral_state_offset.getD k 0)
              (tables.sites.ancestral_state_offset.getD (k + 1) 0),
            column_slice tables.sites.metadata
              (tables.sites.metadata_offset.getD k 0)
              (tables.sites.metadata_offset.getD (k + 1) 0),
            muts⟩ : tsk_site_t) ∈
            (mutget_initialise_sites L self tables).2.sites ∧
          ∀ i, i < run_length tables.mutations.site
              (import_cursor tables.mutations.site k) (Int.ofNat k) →
            tables.mutations.site.getD
              (import_cursor tables.mutations.site k + i) 0 =
              Int.ofNat k) ∧
    (tables.mutations.site.Pairwise (· ≤ ·) →
      (∀ x ∈ tables.mutations.site,
        0 ≤ x ∧ x < Int.ofNat tables.sites.num_rows) →
      import_cursor tables.mutations.site tables.sites.num_rows =
        tables.mutations.num_rows) ∧
    ((mutget_initialise_sites demo_layout
        (mutgen_setup demo_layout demo_mutgen demo_ungrouped_tables)
        demo_ungrouped_tables).1 = none ∧
      ((mutget_initialise_sites demo_layout
        (mutgen_setup demo_layout demo_mutgen demo_ungrouped_tables)
        demo_ungrouped_tables).2.sites.flatMap
          (fun s => s.mutations)).length = 1 ∧
      demo_ungrouped_tables.mutations.num_rows = 2) := by
  refine ⟨?_, ?_, by decide, by decide, by decide⟩
  · intro hok k hk
    rw [mutget_initialise_sites] at hok
    have hruns := initialise_loop_runs L self.block_size tables.sites
      tables.mutations tables.sites.num_rows 0 0 self.sites hok k hk
    obtain ⟨muts, h1, h2⟩ := hruns
    rw [← import_cursor_eq_loop_cursor tables.mutations.site k] at h1
    simp only [Nat.zero_add] at h1 h2
    refine ⟨muts, h1, h2, ?_⟩
    intro i hi
    exact run_length_rows tables.mutations.site
      (import_cursor tables.mutations.site k) (Int.ofNat k) i hi
  · intro hsort hrange
    exact import_cursor_complete tables.mutations.site
      tables.sites.num_rows hsort hrange

/-- C10 witness: on the grouped demo tables the import succeeds and site
row 0 receives the run of both mutation rows starting at cursor 0, each
carrying site id 0. -/
theorem C10_import_contiguous_runs_witness :
    ∃ muts,
      import_site_mutations
        (mutgen_setup demo_layout demo_mutgen demo_tables).block_size
        demo_tables.mutations
        (import_cursor demo_tables.mutations.site 0)
        (run_length demo_tables.mutations.site
          (import_cursor demo_tables.mutations.site 0) (Int.ofNat 0)) =
        some muts ∧
      (⟨demo_tables.sites.position.getD 0 0,
        column_slice demo_tables.sites.ancestral_state
          (demo_tables.sites.ancestral_state_offset.getD 0 0)
          (demo_tables.sites.ancestral_state_offset.getD 1 0),
        column_slice demo_tables.sites.metadata
          (demo_tables.sites.metadata_offset.getD 0 0)
          (demo_tables.sites.metadata_offset.getD 1 0),
        muts⟩ : tsk_site_t) ∈
        (mutget_initialise_sites demo_layout
          (mutgen_setup demo_layout demo_mutgen demo_tables)
          demo_tables).2.sites ∧
      ∀ i, i < run_length demo_tables.mutations.site
          (import_cursor demo_tables.mutations.site 0) (Int.ofNat 0) →
        demo_tables.mutations.site.getD
          (import_cursor demo_tables.mutations.site 0 + i) 0 =
          Int.ofNat 0 :=
  (C10_import_contiguous_runs demo_layout
    (mutgen_setup demo_layout demo_mutgen demo_tables) demo_tables).1
    (by decide) 0 (by decide)

/-! ## The absence of a branch-length guard (C4) -/

/-- A draw stream whose Poisson counts are always 1 — even for a
non-positive mean, which a draw from a real Poisson distribution can never
give; flat draws give 5 and type indices 0. -/
def c4_rng : gsl_rng :=
  ⟨fun _ _ => 1, fun _ _ _ => 5, fun _ _ => 0, 0⟩

/-- A draw stream whose Poisson counts are always 0, so in particular 0 for
every non-positive mean, as for a faithful Poisson sampler. -/
def c4_zero_rng : gsl_rng :=
  ⟨fun _ _ => 0, fun _ _ _ => 5, fun _ _ => 0, 0⟩

/-- A table collection with empty site and mutation tables and one edge
over `[0, 10)` between a child at time 0 and a parent at time 3. -/
def c4_tables : tsk_table_collection_t :=
  { sequence_length := 10, nodes := ⟨[0, 3]⟩, edges := ⟨[0], [10], [1], [0]⟩,
    sites := empty_site_table, mutations := empty_mutation_table }

/-- A generator whose time window `[10, 20]` lies entirely above the edge's
time span `[0, 3]`, so the clipped branch length `min(20, 3) - max(10, 0)`
is `-7 < 0`. -/
def c4_mutgen : mutgen_t :=
  { alphabet := 0, start_time := 10, end_time := 20, block_size := 0,
    map := ⟨1, [0, 0], [1]⟩, sites := [] }

/-- A generator state as it stands during the sampling phase (sentinel
breakpoint written, arena initialised), with the same `[10, 20]` window. -/
def c4_guard_mutgen : mutgen_t :=
  { alphabet := 0, start_time := 10, end_time := 20, block_size := 8192,
    map := ⟨1, [0, 10], [1]⟩, sites := [] }

/-- If every Poisson mean the sub-interval loop forms for an edge is
non-positive and the sampler returns 0 on non-positive means, the loop
returns the generator state unchanged: the edge contributes no mutation. -/
theorem interval_loop_nonpos (L : layout_t) (rej_fuel : Nat)
    (types : List (Char × Char)) (child : Int)
    (branch_length left edge_right : ℚ) (hbl : branch_length ≤ 0)
    (hlr : left ≤ edge_right) :
    ∀ fuel map_index right0 (self : mutgen_t) (rng : gsl_rng),
      (∀ c mu, mu ≤ 0 → rng.poisson_fn c mu = 0) →
      (∀ k, 0 ≤ self.map.rate.getD k 0) →
      (∀ k, left ≤ self.map.position.getD (k + 1) 0) →
      (interval_loop L rej_fuel types child branch_length left edge_right
        fuel map_index right0 self rng).2.1 = self := by
  intro fuel
  induction fuel with
  | zero =>
    intro map_index right0 self rng _ _ _
    rw [interval_loop]
    by_cases h : right0 = edge_right
    · rw [if_pos h]
    · rw [if_neg h]
  | succ fuel ih =>
    intro map_index right0 self rng hpois hrate hleft
    rw [interval_loop]
    by_cases h : right0 = edge_right
    · rw [if_pos h]
    · rw [if_neg h]
      have hd : 0 ≤ min edge_right
          (self.map.position.getD (map_index + 1) 0) - left := by
        have h1 := hleft map_index
        have h2 : left ≤ min edge_right
            (self.map.position.getD (map_index + 1) 0) := le_min hlr h1
        linarith
      have hmu : branch_length *
          (min edge_right (self.map.position.getD (map_index + 1) 0) - left) *
          self.map.rate.getD map_index 0 ≤ 0 :=
        mul_nonpos_of_nonpos_of_nonneg
          (mul_nonpos_of_nonpos_of_nonneg hbl hd) (hrate map_index)
      have hp : rng.poisson_fn rng.counter
          (branch_length *
            (min edge_right (self.map.position.getD (map_index + 1) 0) -
              left) *
            self.map.rate.getD map_index 0) = 0 := hpois _ _ hmu
      show (match branch_mut_loop L rej_fuel child left
          (min edge_right (self.map.position.getD (map_index + 1) 0)) types
          (rng.poisson_fn rng.counter
            (branch_length *
              (min edge_right (self.map.position.getD (map_index + 1) 0) -
                left) *
              self.map.rate.getD map_index 0))
          self { rng with counter := rng.counter + 1 } with
        | (some e, s, r) => (some e, s, r)
        | (none, s, r) =>
          interval_loop L rej_fuel types child branch_length left edge_right
            fuel (map_index + 1)
            (min edge_right (self.map.position.getD (map_index + 1) 0))
            s r).2.1 = self
      rw [hp]
      exact ih (map_index + 1)
        (min edge_right (self.map.position.getD (map_index + 1) 0)) self
        { rng with counter := rng.counter + 1 } hpois hrate hleft

/-- C4 counterexample: there is no `branch_length <= 0` guard before the
Poisson mean is formed.  On a table collection whose only edge has clipped
branch length `min(end_time, parent.time) - max(start_time, child.time) =
-7 < 0`, a draw stream whose Poisson primitive returns 1 even for the
negative mean makes `mutgen_generate` succeed with one mutation in the
output table — the edge contributes a mutation, which the claimed guard
would have made impossible. -/
theorem C4_no_branch_length_guard_counterexample :
    min c4_mutgen.end_time
        (c4_tables.nodes.time.getD (c4_tables.edges.parent.getD 0 0).toNat 0) -
      max c4_mutgen.start_time
        (c4_tables.nodes.time.getD (c4_tables.edges.child.getD 0 0).toNat 0)
      < 0 ∧
    (mutgen_generate demo_layout 10 10 c4_mutgen c4_rng c4_tables false).1 =
      none ∧
    (mutgen_generate demo_layout 10 10 c4_mutgen c4_rng c4_tables
      false).2.2.2.mutations.num_rows = 1 := by
  refine ⟨?_, by decide, by decide⟩
  norm_num [c4_mutgen, c4_tables, min_def, max_def, List.getD]

/-- C4 (amended): the source forms the Poisson mean from the raw clipped
branch length with no explicit non-positivity check; the guard instead
holds semantically for a faithful Poisson sampler.  If the draw stream
returns 0 for every non-positive mean, the rates are non-negative, every
breakpoint past the first lies at or beyond the edge's left coordinate and
the edge is non-empty, then processing an edge whose clipped branch length
`min(end_time, parent.time) - max(start_time, child.time)` is non-positive
leaves the generator state — in particular the site registry — unchanged:
the edge contributes zero mutations. -/
theorem C4_nonpos_branch_no_contribution (L : layout_t)
    (fuel rej_fuel : Nat) (types : List (Char × Char))
    (nodes : tsk_node_table_t) (edges : tsk_edge_table_t)
    (start_time end_time : ℚ) (j : Nat) (self : mutgen_t) (rng : gsl_rng)
    (hpois : ∀ c mu, mu ≤ 0 → rng.poisson_fn c mu = 0)
    (hrate : ∀ k, 0 ≤ self.map.rate.getD k 0)
    (hleft : ∀ k, edges.left.getD j 0 ≤ self.map.position.getD (k + 1) 0)
    (hlr : edges.left.getD j 0 ≤ edges.right.getD j 0)
    (hbl : min end_time (nodes.time.getD (edges.parent.getD j 0).toNat 0) -
        max start_time (nodes.time.getD (edges.child.getD j 0).toNat 0) ≤ 0) :
    (edge_loop L fuel rej_fuel types nodes edges start_time end_time j 1
      self rng).2.1 = self := by
  have hiv := interval_loop_nonpos L rej_fuel types (edges.child.getD j 0)
    (min end_time (nodes.time.getD (edges.parent.getD j 0).toNat 0) -
      max start_time (nodes.time.getD (edges.child.getD j 0).toNat 0))
    (edges.left.getD j 0) (edges.right.getD j 0) hbl hlr fuel
    (if self.map.position.getD
          (tsk_search_sorted self.map.position self.map.size
            (edges.left.getD j 0)) 0 > edges.left.getD j 0 then
        tsk_search_sorted self.map.position self.map.size
          (edges.left.getD j 0) - 1
      else
        tsk_search_sorted self.map.position self.map.size
          (edges.left.getD j 0))
    0 self rng hpois hrate hleft
  simp only [edge_loop]
  rcases hE : interval_loop L rej_fuel types (edges.child.getD j 0)
      (min end_time (nodes.time.getD (edges.parent.getD j 0).toNat 0) -
        max start_time (nodes.time.getD (edges.child.getD j 0).toNat 0))
      (edges.left.getD j 0) (edges.right.getD j 0) fuel
      (if self.map.position.getD
            (tsk_search_sorted self.map.position self.map.size
              (edges.left.getD j 0)) 0 > edges.left.getD j 0 then
          tsk_search_sorted self.map.position self.map.size
            (edges.left.getD j 0) - 1
        else
          tsk_search_sorted self.map.position self.map.size
            (edges.left.getD j 0))
      0 self rng with ⟨ret, s, r⟩
  rw [hE] at hiv
  cases ret with
  | some e => exact hiv
  | none => exact hiv

/-- C4 witness: a concrete edge over `[0, 10)` whose clipped branch length
is `min(20, 3) - max(10, 0) = -7`, processed with a faithful (always-zero
on this edge) Poisson stream, leaves the generator state unchanged. -/
theorem C4_nonpos_branch_no_contribution_witness :
    (edge_loop demo_layout 3 3 binary_mutation_types ⟨[0, 3]⟩
      ⟨[0], [10], [1], [0]⟩ 10 20 0 1 c4_guard_mutgen c4_zero_rng).2.1 =
      c4_guard_mutgen :=
  C4_nonpos_branch_no_contribution demo_layout 3 3 binary_mutation_types
    ⟨[0, 3]⟩ ⟨[0], [10], [1], [0]⟩ 10 20 0 c4_guard_mutgen c4_zero_rng
    (fun _ _ _ => rfl)
    (fun k => match k with
      | 0 => by decide
      | _ + 1 => le_refl 0)
    (fun k => match k with
      | 0 => by decide
      | _ + 1 => le_refl 0)
    (by decide)
    (by norm_num [min_def, max_def, List.getD])

end Mutgen
